import Mathlib

/-
Verification development for the fingerprint-go repository.

The Go sources are shallowly embedded as executable Lean definitions:

* Go `map[string]V` values are represented as association lists
  `List (String × V)` with Go-map update semantics (`aset` overwrites the
  entry with the same key in place, or appends).  Go map iteration order is
  not deterministic; where the source iterates a map, the embedding iterates
  the association list in list order, a determinization of the source.
* `encoding/json`-style dynamic values (`any` in Go) are embedded as the
  inductive type `GoVal`; Go type assertions become pattern matches.
* `float64` probabilities are embedded as `ℚ`.  No claim treated here
  depends on floating-point rounding.
* `math/rand.Float64` is embedded as a stream `rng : ℕ → ℚ` of draws
  together with a threaded position; `math/rand.Shuffle` is embedded as a
  function parameter of the generator (the claims quantify over all
  shuffle outcomes).
* Go functions whose recursion is not structural carry an explicit fuel
  parameter; running out of fuel yields the failure value of the function.
  The theorems quantify over the fuel, and the actual recursion depth of
  the source is bounded, so every run of the source is an instance.
* Byte-level `strings`/`unicode` helpers are embedded on `List Char`; the
  ASCII case mappings are used (header names are ASCII).
-/

set_option maxHeartbeats 1000000

/-! ## Association lists with Go map semantics -/

/-- Lookup of a key in an association list (first matching entry). -/
def alookup {α : Type} : List (String × α) → String → Option α
  | [], _ => none
  | (k1, v) :: rest, k => if k1 = k then some v else alookup rest k

/-- Go map assignment: overwrite the entry with the given key, or append. -/
def aset {α : Type} : List (String × α) → String → α → List (String × α)
  | [], k, v => [(k, v)]
  | (k1, v1) :: rest, k, v =>
      if k1 = k then (k, v) :: rest else (k1, v1) :: aset rest k v

/-! ## ASCII case mapping and string helpers -/

/-- ASCII lower-casing of a character (embedding of the case mapping used by
`strings.ToLower` on header names, which are ASCII). -/
def lowerChar (c : Char) : Char :=
  if c = 'A' then 'a' else if c = 'B' then 'b' else if c = 'C' then 'c'
  else if c = 'D' then 'd' else if c = 'E' then 'e' else if c = 'F' then 'f'
  else if c = 'G' then 'g' else if c = 'H' then 'h' else if c = 'I' then 'i'
  else if c = 'J' then 'j' else if c = 'K' then 'k' else if c = 'L' then 'l'
  else if c = 'M' then 'm' else if c = 'N' then 'n' else if c = 'O' then 'o'
  else if c = 'P' then 'p' else if c = 'Q' then 'q' else if c = 'R' then 'r'
  else if c = 'S' then 's' else if c = 'T' then 't' else if c = 'U' then 'u'
  else if c = 'V' then 'v' else if c = 'W' then 'w' else if c = 'X' then 'x'
  else if c = 'Y' then 'y' else if c = 'Z' then 'z' else c

/-- ASCII upper-casing of a character (embedding of `unicode.ToUpper` /
`strings.ToUpper` on ASCII input). -/
def upperChar (c : Char) : Char :=
  if c = 'a' then 'A' else if c = 'b' then 'B' else if c = 'c' then 'C'
  else if c = 'd' then 'D' else if c = 'e' then 'E' else if c = 'f' then 'F'
  else if c = 'g' then 'G' else if c = 'h' then 'H' else if c = 'i' then 'I'
  else if c = 'j' then 'J' else if c = 'k' then 'K' else if c = 'l' then 'L'
  else if c = 'm' then 'M' else if c = 'n' then 'N' else if c = 'o' then 'O'
  else if c = 'p' then 'P' else if c = 'q' then 'Q' else if c = 'r' then 'R'
  else if c = 's' then 'S' else if c = 't' then 'T' else if c = 'u' then 'U'
  else if c = 'v' then 'V' else if c = 'w' then 'W' else if c = 'x' then 'X'
  else if c = 'y' then 'Y' else if c = 'z' then 'Z' else c

/-- Embedding of `strings.ToLower`. -/
def goToLower (s : String) : String := ⟨s.data.map lowerChar⟩

/-- Embedding of `strings.ToUpper`. -/
def goToUpper (s : String) : String := ⟨s.data.map upperChar⟩

/-- Embedding of `strings.HasPrefix s pre`. -/
def goStartsWith (s pre : String) : Bool := pre.data.isPrefixOf s.data

/-- Helper for `goContains`: does `needle` occur in the haystack? -/
def containsAux (needle : List Char) : List Char → Bool
  | [] => needle.isEmpty
  | c :: rest => needle.isPrefixOf (c :: rest) || containsAux needle rest

/-- Embedding of `strings.Contains s sub`. -/
def goContains (s sub : String) : Bool := containsAux sub.data s.data

/-- Splitting a character list at each occurrence of the dash character, the
semantics of `strings.Split(name, "-")`. -/
def splitDash : List Char → List (List Char)
  | [] => [[]]
  | c :: rest =>
      if c = '-' then [] :: splitDash rest
      else
        match splitDash rest with
        | [] => [[c]]
        | p :: ps => (c :: p) :: ps

/-- Joining with dashes, semantics of `strings.Join(parts, "-")`. -/
def joinDash : List (List Char) → List Char
  | [] => []
  | [p] => p
  | p :: q :: ps => p ++ '-' :: joinDash (q :: ps)

/-- One part of the pascal-case rewrite: upper-case the first character,
lower-case the rest (the loop body inside the `pascalize` closure of
`GetHeaders`). -/
def capPart : List Char → List Char
  | [] => []
  | c :: rest => upperChar c :: rest.map lowerChar

/-- Embedding of the `pascalize` closure of `GetHeaders`: split on the dash,
capitalize every part, and re-join. -/
def pascalize (s : String) : String :=
  ⟨joinDash ((splitDash s.data).map capPart)⟩

/-- Is the character an ASCII digit. -/
def isDigitChar (c : Char) : Bool := '0' ≤ c && c ≤ '9'

/-- Value of a digit string. -/
def digitsToNat (ds : List Char) : ℕ :=
  ds.foldl (fun acc c => acc * 10 + (c.toNat - 48)) 0

/-- Embedding of `strconv.Atoi` as used with its error ignored: on any
syntax error the value `0` is used. -/
def goAtoi (s : String) : ℤ :=
  match s.data with
  | [] => 0
  | '-' :: ds => if ds ≠ [] ∧ ds.all isDigitChar then -(digitsToNat ds : ℤ) else 0
  | '+' :: ds => if ds ≠ [] ∧ ds.all isDigitChar then (digitsToNat ds : ℤ) else 0
  | ds => if ds.all isDigitChar then (digitsToNat ds : ℤ) else 0

/-- Embedding of `strings.SplitN(s, sep, 2)`. -/
def splitN2 (s sep : String) : List String :=
  match s.splitOn sep with
  | [] => [s]
  | [p] => [p]
  | p :: q :: ps => [p, String.intercalate sep (q :: ps)]

/-! ## Dynamic JSON-like values (`any` in Go) -/

/-- Embedding of Go `any` values produced by `encoding/json`:
numbers (`float64`), strings, booleans, null, arrays and objects. -/
inductive GoVal where
  | vFloat (q : ℚ)
  | vStr (s : String)
  | vBool (b : Bool)
  | vNull
  | vArr (items : List GoVal)
  | vMap (entries : List (String × GoVal))

/-! ## Bayesian network data model (`bayesian` package) -/

/-- Embedding of `bayesian.NodeDefinition` / `bayesian.Node` (the `Node`
struct only wraps its `Definition`, so the two are flattened). -/
structure Node where
  name : String
  parentNames : List String
  possibleValues : List String
  conditionalProbabilities : GoVal

/-- Embedding of `bayesian.Network`.  The `NodesByName` map is derived from
the ordered node list exactly as `NewNetwork` builds it (`nodesByName`). -/
structure Network where
  nodesInSamplingOrder : List Node

/-- The `NodesByName` lookup: `NewNetwork` inserts nodes in order, so a
duplicated name resolves to the last node with that name. -/
def nodesByName (net : Network) (key : String) : Option Node :=
  net.nodesInSamplingOrder.reverse.find? (fun nd => nd.name == key)

/-- The walk over the conditional-probability tree performed by
`Node.getProbabilitiesGivenKnownValues`: for each parent in order, descend
into `deeper[parentValue]` when the `deeper` child is a map holding the
parent value, otherwise into `skip` when present, otherwise stop (also when
the cursor is not a map). -/
def cptWalkGo : GoVal → List String → List (String × String) → GoVal
  | probabilities, [], _ => probabilities
  | probabilities, parentName :: rest, parentValues =>
    match probabilities with
    | GoVal.vMap m =>
      let parentValue := (alookup parentValues parentName).getD ""
      match alookup m "deeper" with
      | some (GoVal.vMap deeper) =>
        (match alookup deeper parentValue with
         | some val => cptWalkGo val rest parentValues
         | none =>
           match alookup m "skip" with
           | some skip1 => cptWalkGo skip1 rest parentValues
           | none => GoVal.vMap m)
      | _ =>
        match alookup m "skip" with
        | some skip1 => cptWalkGo skip1 rest parentValues
        | none => GoVal.vMap m
    | other => other

/-- The final step of `getProbabilitiesGivenKnownValues`: keep exactly the
entries of the leaf whose value is a float. -/
def extractFloats : GoVal → List (String × ℚ)
  | GoVal.vMap m =>
      m.filterMap (fun p => match p.2 with
        | GoVal.vFloat f => some (p.1, f)
        | _ => none)
  | _ => []

/-- Embedding of `Node.getProbabilitiesGivenKnownValues`. -/
def getProbabilitiesGivenKnownValues (n : Node) (parentValues : List (String × String)) :
    List (String × ℚ) :=
  extractFloats (cptWalkGo n.conditionalProbabilities n.parentNames parentValues)

/-- The scan inside `sampleRandomValueFromPossibilities`: accumulate the
probabilities in support order, returning the first value whose running sum
exceeds the anchor, and the default (first) value otherwise. -/
def samplePick : List String → List (String × ℚ) → ℚ → ℚ → String → String
  | [], _, _, _, chosen => chosen
  | v :: rest, probs, anchor, cumulative, chosen =>
      let c := cumulative + ((alookup probs v).getD 0)
      if anchor < c then v else samplePick rest probs anchor c chosen

/-- Embedding of `Node.sampleRandomValueFromPossibilities`.  The source draws
`rand.Float64()` once (only when the support is non-empty); the embedding
reads the draw from `rng` at position `k` and returns the next position. -/
def sampleRandomValueFromPossibilities (possibleValues : List String)
    (totalProbability : ℚ) (probabilities : List (String × ℚ))
    (rng : ℕ → ℚ) (k : ℕ) : String × ℕ :=
  match possibleValues with
  | [] => ("", k)
  | v0 :: _ =>
      let anchor := rng k * totalProbability
      (samplePick possibleValues probabilities anchor 0 v0, k + 1)

/-- Embedding of the `slicesContains` helper of the `bayesian` package. -/
def slicesContains : List String → String → Bool
  | [], _ => false
  | item :: rest, val => if item = val then true else slicesContains rest val

/-- Embedding of `Node.SampleAccordingToRestrictions`. -/
def SampleAccordingToRestrictions (n : Node) (parentValues : List (String × String))
    (valuePossibilities : List String) (bannedValues : List String)
    (rng : ℕ → ℚ) (k : ℕ) : String × ℕ :=
  let probabilities := getProbabilitiesGivenKnownValues n parentValues
  let valuesInDistribution := probabilities.map (fun p => p.1)
  let possibleValues :=
    if valuePossibilities.length = 0 then valuesInDistribution else valuePossibilities
  let validValues := possibleValues.filter (fun v =>
    !(slicesContains bannedValues v) && slicesContains valuesInDistribution v)
  let totalProbability :=
    (validValues.map (fun v => (alookup probabilities v).getD 0)).sum
  if validValues.length = 0 then ("", k)
  else sampleRandomValueFromPossibilities validValues totalProbability probabilities rng k

/-- Embedding of `Node.Sample`. -/
def Node.Sample (n : Node) (parentValues : List (String × String))
    (rng : ℕ → ℚ) (k : ℕ) : String × ℕ :=
  let probabilities := getProbabilitiesGivenKnownValues n parentValues
  let possibleValues := probabilities.map (fun p => p.1)
  sampleRandomValueFromPossibilities possibleValues 1 probabilities rng k

/-- Embedding of `Network.GenerateSample` (the ancestral sampler). -/
def Network.GenerateSample (bn : Network) (inputValues : List (String × String))
    (rng : ℕ → ℚ) (k : ℕ) : List (String × String) × ℕ :=
  bn.nodesInSamplingOrder.foldl
    (fun acc node =>
      if (alookup acc.1 node.name).isSome then acc
      else
        let sv := Node.Sample node acc.1 rng acc.2
        (aset acc.1 node.name sv.1, sv.2))
    (inputValues, k)

/-! ## Constrained sampler (`recursivelyGenerateConsistentSampleWhenPossible`)

The Go function mutates `sampleSoFar` in place and threads it through a
backtracking recursion; the embedding threads the map explicitly and returns
the triple (result, mutated map, rng position).  A failed branch returns an
empty result together with the mutated map, exactly as the shared Go map
persists across the failed recursive call.  The recursion is driven by a
fuel parameter (each recursive call and each iteration of the banned-value
loop consumes one unit); exhausted fuel yields the failure value. -/

/-- Result triple of the constrained sampler: generated sample, working
assignment after the call (the shared mutated map), and rng position. -/
abbrev SamplerRes := List (String × String) × List (String × String) × ℕ

/-- The pair of mutually recursive functions of the constrained sampler:
the per-depth entry (`recursivelyGenerateConsistentSampleWhenPossible`) and
its inner retry loop over banned values. -/
abbrev SamplerFuns :=
  (List (String × String) → ℕ → ℕ → SamplerRes) ×
  (List (String × String) → ℕ → Node → List String → ℕ → SamplerRes)

/-- One step of the constrained sampler: given the functions for the next
lower fuel level, produce the pair at the current level.  Component 1 is the
body of `recursivelyGenerateConsistentSampleWhenPossible`, component 2 the
body of its `for` loop over banned values. -/
def samplerStep (bn : Network) (vp : List (String × List String)) (rng : ℕ → ℚ)
    (prev : SamplerFuns) : SamplerFuns :=
  (fun state depth k =>
    if h : depth < bn.nodesInSamplingOrder.length then
      prev.2 state depth (bn.nodesInSamplingOrder.get ⟨depth, h⟩) [] k
    else (state, state, k),
   fun state depth node banned k =>
    let sv := SampleAccordingToRestrictions node state
      ((alookup vp node.name).getD []) banned rng k
    if sv.1 = "" then ([], state, sv.2)
    else
      let state1 := aset state node.name sv.1
      if depth + 1 < bn.nodesInSamplingOrder.length then
        let deeper := prev.1 state1 (depth + 1) sv.2
        if deeper.1.length > 0 then deeper
        else prev.2 deeper.2.1 depth node (banned ++ [sv.1]) deeper.2.2
      else (state1, state1, sv.2))

/-- The fuel-indexed constrained sampler, by recursion on the fuel. -/
def samplerFuns (bn : Network) (vp : List (String × List String)) (rng : ℕ → ℚ) :
    ℕ → SamplerFuns :=
  Nat.rec
    ((fun state _ k => ([], state, k)), (fun state _ _ _ k => ([], state, k)))
    (fun _ prev => samplerStep bn vp rng prev)

/-- Embedding of `recursivelyGenerateConsistentSampleWhenPossible`. -/
def recursivelyGenerateConsistentSampleWhenPossible (bn : Network) (fuel : ℕ)
    (sampleSoFar : List (String × String)) (vp : List (String × List String))
    (depth : ℕ) (rng : ℕ → ℚ) (k : ℕ) : SamplerRes :=
  (samplerFuns bn vp rng fuel).1 sampleSoFar depth k

/-- Embedding of `Network.GenerateConsistentSampleWhenPossible`. -/
def Network.GenerateConsistentSampleWhenPossible (bn : Network) (fuel : ℕ)
    (valuePossibilities : List (String × List String)) (rng : ℕ → ℚ) (k : ℕ) :
    List (String × String) × ℕ :=
  let r := recursivelyGenerateConsistentSampleWhenPossible bn fuel [] valuePossibilities 0 rng k
  (r.1, r.2.2)

/-! ## Constraint closure (`bayesian/utils.go`) -/

/-- Embedding of `ArrayIntersection`. -/
def ArrayIntersection (a b : List String) : List String :=
  a.filter (fun x => slicesContains b x)

/-- The inner union of `filterByLastLevelKeys`: append the elements of the
second list that are not yet present, checking against the growing result. -/
def unionAcc (u : List String) : List String → List String
  | [] => u
  | v :: rest => if slicesContains u v then unionAcc u rest else unionAcc (u ++ [v]) rest

/-- The `arrayZip`-style combination inside `filterByLastLevelKeys`:
pairwise union, truncated to the shorter length. -/
def zipUnionPaths (fp macc : List (List String)) : List (List String) :=
  (List.zip fp macc).map (fun p => unionAcc p.1 p.2)

/-- The leaf case of the DFS in `filterByLastLevelKeys`. -/
def leafStep (validKeys : List String) (key : String) (acc : List String)
    (fp : List (List String)) : List (List String) :=
  if slicesContains validKeys key then
    if fp.length = 0 then acc.map (fun x => [x])
    else zipUnionPaths fp (acc.map (fun x => [x]))
  else fp

/-- One level of the DFS of `filterByLastLevelKeys` over the entries of a
map, using `ih` for the descent into sub-maps. -/
def dfsList (validKeys : List String)
    (ih : List (String × GoVal) → List String → List (List String) → List (List String)) :
    List (String × GoVal) → List String → List (List String) → List (List String)
  | [], _, fp => fp
  | (key, GoVal.vMap m1) :: rest, acc, fp =>
      dfsList validKeys ih rest acc (ih m1 (acc ++ [key]) fp)
  | (key, _) :: rest, acc, fp =>
      dfsList validKeys ih rest acc (leafStep validKeys key acc fp)

/-- The fuel-indexed DFS of `filterByLastLevelKeys` (fuel bounds the tree
depth; the source recursion is bounded by the depth of the CPT). -/
def dfsEntries (validKeys : List String) :
    ℕ → List (String × GoVal) → List String → List (List String) → List (List String) :=
  Nat.rec (fun _ _ fp => fp) (fun _ ih => dfsList validKeys ih)

/-- Embedding of `filterByLastLevelKeys`. -/
def filterByLastLevelKeys (fuel : ℕ) (tree : GoVal) (validKeys : List String) :
    List (List String) :=
  match tree with
  | GoVal.vMap m => dfsEntries validKeys fuel m [] []
  | _ => []

/-- One level of `Undeeper` over the entries of a map, using `ih` for the
recursive calls on entry values. -/
def undeeperStep (ih : GoVal → GoVal) : List (String × GoVal) → List (String × GoVal)
  | [] => []
  | (key, val) :: rest =>
      if key = "skip" then undeeperStep ih rest
      else if key = "deeper" then
        (match ih val with
         | GoVal.vMap dm => dm
         | _ => []) ++ undeeperStep ih rest
      else (key, ih val) :: undeeperStep ih rest

/-- The fuel-indexed embedding of `Undeeper` (fuel bounds the tree depth). -/
def Undeeper : ℕ → GoVal → GoVal :=
  Nat.rec (fun v => v)
    (fun _ ih v =>
      match v with
      | GoVal.vMap m => GoVal.vMap (undeeperStep ih m)
      | w => w)

/-- The over-constrained error text of `GetConstraintClosure`. -/
def tooRestrictiveMsg : String :=
  "The current constraints are too restrictive. No possible values can be found for the given constraints."

/-- The per-constraint `set` built by `GetConstraintClosure`:
`set[parentNames[i]] = zippedValues[i]` for `i` below the parent count. -/
def buildSet (parents : List String) (zipped : List (List String)) :
    List (String × List String) :=
  (List.zip parents zipped).foldl (fun acc p => aset acc p.1 p.2) []

/-- The first loop of `GetConstraintClosure`: build one constraint set per
entry that names a node, fail when an entry has an empty value list, and
track whether any entry produced a matching path. -/
def closureSets (fuel : ℕ) (net : Network) :
    List (String × List String) → Except String (List (List (String × List String)) × Bool)
  | [] => Except.ok ([], false)
  | (key, values) :: rest =>
      if values.length = 0 then Except.error tooRestrictiveMsg
      else
        match nodesByName net key with
        | none => closureSets fuel net rest
        | some node =>
          let tree := Undeeper fuel node.conditionalProbabilities
          let zipped := filterByLastLevelKeys fuel tree values
          let set1 := aset (buildSet node.parentNames zipped) key values
          match closureSets fuel net rest with
          | Except.error e => Except.error e
          | Except.ok (sets, found) =>
              Except.ok (set1 :: sets, decide (zipped.length > 0) || found)

/-- The inner merge loop of `GetConstraintClosure` over the entries of one
constraint set. -/
def closureMergeSet : List (String × List String) → List (String × List String) →
    Except String (List (String × List String))
  | [], result => Except.ok result
  | (key, vals) :: rest, result =>
      let newVals :=
        match alookup result key with
        | some existing => ArrayIntersection existing vals
        | none => vals
      if newVals.length = 0 then Except.error tooRestrictiveMsg
      else closureMergeSet rest (aset result key newVals)

/-- The outer merge loop of `GetConstraintClosure` over all constraint sets. -/
def closureMerge : List (List (String × List String)) → List (String × List String) →
    Except String (List (String × List String))
  | [], result => Except.ok result
  | set1 :: rest, result =>
      match closureMergeSet set1 result with
      | Except.error e => Except.error e
      | Except.ok result1 => closureMerge rest result1

/-- Embedding of `bayesian.GetConstraintClosure`. -/
def GetConstraintClosure (fuel : ℕ) (net : Network)
    (possibleValues : List (String × List String)) :
    Except String (List (String × List String)) :=
  match closureSets fuel net possibleValues with
  | Except.error e => Except.error e
  | Except.ok (sets, found) =>
      if found then closureMerge sets [] else Except.ok []

/-! ## Header generator data model (`header` package) -/

/-- Embedding of the header-package constant `MissingValueDatasetToken`. -/
def missingValueToken : String := "*MISSING_VALUE*"

/-- Embedding of the constant `BrowserHttpNodeName`. -/
def browserHttpNodeName : String := "*BROWSER_HTTP"

/-- Embedding of the constant `BrowserNodeName` of the `network` package. -/
def browserNodeName : String := "*BROWSER"

/-- Embedding of the constant `OperatingSystemNodeName`. -/
def operatingSystemNodeName : String := "*OPERATING_SYSTEM"

/-- Embedding of the constant `DeviceNodeName`. -/
def deviceNodeName : String := "*DEVICE"

/-- Embedding of `SupportedBrowsers`. -/
def SupportedBrowsers : List String := ["chrome", "firefox", "safari", "edge"]

/-- Embedding of `Http1SecFetchAttributes`. -/
def http1SecFetchAttributes : List (String × String) :=
  [("mode", "Sec-Fetch-Mode"), ("dest", "Sec-Fetch-Dest"),
   ("site", "Sec-Fetch-Site"), ("user", "Sec-Fetch-User")]

/-- Embedding of `Http2SecFetchAttributes`. -/
def http2SecFetchAttributes : List (String × String) :=
  [("mode", "sec-fetch-mode"), ("dest", "sec-fetch-dest"),
   ("site", "sec-fetch-site"), ("user", "sec-fetch-user")]

/-- The relaxation order fixed by `NewHeaderGenerator`. -/
def relaxationOrder : List String :=
  ["locales", "devices", "operatingSystems", "browsers", "browserListQuery"]

/-- Embedding of `BrowserSpecification`. -/
structure BrowserSpecification where
  name : String
  minVersion : ℤ
  maxVersion : ℤ
  httpVersion : String

/-- An element of the Go `Browsers []any` option: either a plain browser
name or a full specification. -/
inductive BrowserOpt where
  | byName (s : String)
  | bySpec (b : BrowserSpecification)

/-- Embedding of `HeaderGeneratorOptions`.  Go `nil` slices are `none`
(the option-merging logic distinguishes nil from empty). -/
structure HeaderGeneratorOptions where
  browsers : Option (List BrowserOpt)
  browserListQuery : String
  operatingSystems : Option (List String)
  devices : Option (List String)
  locales : Option (List String)
  httpVersion : String
  strict : Bool

/-- Embedding of `HttpBrowserObject`. -/
structure HttpBrowserObject where
  name : String
  version : List ℤ
  completeString : String
  httpVersion : String

/-- Embedding of `HeaderGenerator` (the fields `GetHeaders` reads).
`shuffle` models the outcomes of `math/rand.Shuffle` in `ShuffleArray`. -/
structure HeaderGenerator where
  globalOptions : HeaderGeneratorOptions
  inputGeneratorNetwork : Network
  headerGeneratorNetwork : Network
  uniqueBrowsers : List HttpBrowserObject
  headersOrder : List (String × List String)
  shuffle : List String → List String

/-- Embedding of `GetBrowsersFromQuery` (returns the supported browsers). -/
def GetBrowsersFromQuery (_query : String) : List String := SupportedBrowsers

/-- Embedding of `prepareBrowserObject`. -/
def prepareBrowserObject (browserString : String) : HttpBrowserObject :=
  let nameVersionSplit := browserString.splitOn "/"
  let name := nameVersionSplit.headI
  let preparedVersion :=
    match nameVersionSplit.get? 1 with
    | some vs => (vs.splitOn ".").map goAtoi
    | none => []
  { name := name, version := preparedVersion,
    completeString := browserString, httpVersion := "" }

/-- Embedding of `prepareHttpBrowserObject`. -/
def prepareHttpBrowserObject (httpBrowserString : String) : HttpBrowserObject :=
  let parts := httpBrowserString.splitOn "|"
  let browserString := parts.headI
  let httpVersion := (parts.get? 1).getD ""
  let base :=
    if browserString = missingValueToken then
      { name := missingValueToken, version := [], completeString := "",
        httpVersion := "" : HttpBrowserObject }
    else prepareBrowserObject browserString
  { base with httpVersion := httpVersion, completeString := httpBrowserString }

/-- The option merge performed at the top of `GetHeaders` (and of
`NewHeaderGenerator`): call-site options override the base field-wise,
`Strict` unconditionally. -/
def mergeOptions (base : HeaderGeneratorOptions) :
    Option HeaderGeneratorOptions → HeaderGeneratorOptions
  | none => base
  | some o =>
    { browsers := if o.browsers.isSome then o.browsers else base.browsers,
      browserListQuery :=
        if o.browserListQuery ≠ "" then o.browserListQuery else base.browserListQuery,
      operatingSystems :=
        if o.operatingSystems.isSome then o.operatingSystems else base.operatingSystems,
      devices := if o.devices.isSome then o.devices else base.devices,
      locales := if o.locales.isSome then o.locales else base.locales,
      httpVersion := if o.httpVersion ≠ "" then o.httpVersion else base.httpVersion,
      strict := o.strict }

/-- Embedding of `prepareBrowsersConfig`. -/
def prepareBrowsersConfig (browsers : Option (List BrowserOpt))
    (browserListQuery : String) (httpVersion : String) : List BrowserSpecification :=
  let finalBrowsers : List BrowserOpt :=
    if browserListQuery ≠ "" then (GetBrowsersFromQuery browserListQuery).map BrowserOpt.byName
    else browsers.getD []
  finalBrowsers.map (fun b =>
    match b with
    | BrowserOpt.byName v =>
        { name := v, minVersion := 0, maxVersion := 0, httpVersion := httpVersion }
    | BrowserOpt.bySpec v =>
        if v.httpVersion = "" then { v with httpVersion := httpVersion } else v)

/-- Embedding of `getBrowserHttpOptions`. -/
def getBrowserHttpOptions (g : HeaderGenerator) (browsers : List BrowserSpecification) :
    List String :=
  browsers.foldl (fun acc browser =>
    acc ++ (g.uniqueBrowsers.filter (fun bo =>
      let browserMajorVersion := bo.version.headI
      browser.name = bo.name ∧
      (browser.minVersion = 0 ∨ browser.minVersion ≤ browserMajorVersion) ∧
      (browser.maxVersion = 0 ∨ browser.maxVersion ≥ browserMajorVersion) ∧
      (browser.httpVersion = "0" ∨ browser.httpVersion = "" ∨
        browser.httpVersion = bo.httpVersion))).map (fun bo => bo.completeString)) []

/-- Embedding of `getPossibleAttributeValues`. -/
def getPossibleAttributeValues (g : HeaderGenerator)
    (headerOptions : HeaderGeneratorOptions) : List (String × List String) :=
  let browsers := prepareBrowsersConfig headerOptions.browsers
    headerOptions.browserListQuery headerOptions.httpVersion
  let browserHttpOptions := getBrowserHttpOptions g browsers
  let pav := aset [] browserHttpNodeName browserHttpOptions
  let pav := aset pav operatingSystemNodeName (headerOptions.operatingSystems.getD [])
  if (headerOptions.devices.getD []).length > 0 then
    aset pav deviceNodeName (headerOptions.devices.getD [])
  else pav

/-- Modelled from the spec: package `network`'s `GetConstraintClosure`, the
variant called by `GetHeaders`, is not part of the repository snapshot (the
`network` package source available contains only dataset preparation and
record validation).  Per spec section 4.6 it computes the constraint closure
and per section 9 the error case is ignored by header generation, so it is
modelled as the `bayesian` closure with an over-constrained error collapsed
to an empty constraint map. -/
def networkGetConstraintClosure (fuel : ℕ) (net : Network)
    (possibleValues : List (String × List String)) : List (String × List String) :=
  match GetConstraintClosure fuel net possibleValues with
  | Except.ok m => m
  | Except.error _ => []

/-- Embedding of `GetUserAgent` (first header whose lower-cased name is
`user-agent`). -/
def GetUserAgent (headers : List (String × String)) : String :=
  ((headers.find? (fun p => goToLower p.1 == "user-agent")).map (fun p => p.2)).getD ""

/-- Embedding of `GetBrowser`. -/
def GetBrowser (userAgent0 : String) : String :=
  let userAgent := goToLower userAgent0
  if goContains userAgent "edg" then "edge"
  else if goContains userAgent "chrome" && !(goContains userAgent "edg") then "chrome"
  else if goContains userAgent "safari" && !(goContains userAgent "chrome") then "safari"
  else if goContains userAgent "firefox" then "firefox"
  else ""

/-- Embedding of `getOrderFromUserAgent`. -/
def getOrderFromUserAgent (g : HeaderGenerator) (headers : List (String × String)) :
    List String :=
  let browser := GetBrowser (GetUserAgent headers)
  if browser = "" then [] else (alookup g.headersOrder browser).getD []

/-- Embedding of `OrderHeaders`: emit the headers named by the order list
first, then the remaining headers.  Go `nil` and empty order lists behave
identically and are both represented by `[]`. -/
def OrderHeaders (g : HeaderGenerator) (headers : List (String × String))
    (order0 : List String) : List (String × String) :=
  let order := if order0.length = 0 then getOrderFromUserAgent g headers else order0
  let ordered := order.foldl (fun acc a =>
      match alookup headers a with
      | some val => aset acc a val
      | none => acc) []
  headers.foldl (fun acc p =>
      if slicesContains order p.1 then acc else aset acc p.1 p.2) ordered

/-- One-decimal fixed-point formatting of a quality value, the behaviour of
`strconv.FormatFloat(q, 'f', 1, 64)` on the qualities `1.0 − 0.1·x`
produced by `getAcceptLanguageField` (on these values the float64
computation rounds to the exact one-decimal result). -/
def fmtOneDec (q : ℚ) : String :=
  let n : ℤ := round (q * 10)
  let a := n.natAbs
  (if n < 0 then "-" else "") ++ toString (a / 10) ++ "." ++ toString (a % 10)

/-- The accumulation loop of `getAcceptLanguageField`
(`for x := 1; x < len; x++`), over the tail of the locale list with the
running index. -/
def acceptLangAppend : List String → ℕ → String → String
  | [], _, acc => acc
  | l :: rest, x, acc =>
      acceptLangAppend rest (x + 1)
        (acc ++ "," ++ l ++ ";q=" ++ fmtOneDec (1 - (x : ℚ) / 10))

/-- Embedding of `getAcceptLanguageField`. -/
def getAcceptLanguageField (g : HeaderGenerator) (localesFromOptions : List String) :
    String :=
  let locales := localesFromOptions
  let highLevelLocales0 := locales.filter (fun locale => !(goContains locale "-"))
  let highLevelLocales1 := locales.foldl (fun hll locale =>
      if !(slicesContains hll locale) && !(hll.any (fun h => goContains locale h)) then
        hll ++ [locale]
      else hll) highLevelLocales0
  let highLevelLocales := g.shuffle highLevelLocales1
  let localesSh := g.shuffle locales
  let localesInAddingOrder := highLevelLocales.foldl (fun lia h =>
      lia ++ (localesSh.filter (fun locale =>
        goContains locale h && !(slicesContains highLevelLocales locale))) ++ [h]) []
  match localesInAddingOrder with
  | [] => ""
  | l0 :: rest => acceptLangAppend rest 1 l0

/-- The header-name rewrite of the HTTP/1 fallback branch of `GetHeaders`:
`sec-ch-ua*` names are kept, `dnt`/`rtt`/`ect` are upper-cased, every other
name is pascal-cased. -/
def convertName (name : String) : String :=
  if goStartsWith name "sec-ch-ua" then name
  else if name = "dnt" ∨ name = "rtt" ∨ name = "ect" then goToUpper name
  else pascalize name

/-- The conversion loop of the HTTP/1 fallback branch of `GetHeaders`. -/
def convertHeaders (headers : List (String × String)) : List (String × String) :=
  headers.foldl (fun acc p => aset acc (convertName p.1) p.2) []

/-- Which option class of the relaxation order is explicitly set in a
per-call options value (the `switch` inside the relaxation-index loop). -/
def classIsSet (o : HeaderGeneratorOptions) (key : String) : Bool :=
  if key = "locales" then o.locales.isSome
  else if key = "devices" then o.devices.isSome
  else if key = "operatingSystems" then o.operatingSystems.isSome
  else if key = "browsers" then o.browsers.isSome
  else if key = "browserListQuery" then decide (o.browserListQuery ≠ "")
  else false

/-- The relaxation-index computation of `GetHeaders`: the first class of the
relaxation order explicitly set in the per-call options (`none` when the
per-call options are nil or no class is set, the `-1` of the source). -/
def findRelaxationIndex : Option HeaderGeneratorOptions → Option ℕ
  | none => none
  | some o => relaxationOrder.findIdx? (fun key => classIsSet o key)

/-- The relaxation step of `GetHeaders`: clear the selected option class,
leaving every other field unchanged. -/
def applyRelaxation (o : HeaderGeneratorOptions) (key : String) :
    HeaderGeneratorOptions :=
  if key = "locales" then { o with locales := none }
  else if key = "devices" then { o with devices := none }
  else if key = "operatingSystems" then { o with operatingSystems := none }
  else if key = "browsers" then { o with browsers := none }
  else if key = "browserListQuery" then { o with browserListQuery := "" }
  else o

/-- The over-constrained error text of `GetHeaders`. -/
def overConstrainedMsg : String :=
  "No headers based on this input can be generated. Please relax or change some of the requirements you specified."

/-- Error value returned when the sampler fuel of the embedding is
exhausted (an artifact of the fuel encoding; the theorems quantify over
the fuel). -/
def fuelExhaustedMsg : String := "embedding fuel exhausted"

/-- The input-constraint computation of `GetHeaders` (steps 2–3 of spec
section 4.8): possible attribute values filtered through the two
user-agent closures. -/
def getHeadersInputConstraints (g : HeaderGenerator) (subfuel : ℕ)
    (headerOptions : HeaderGeneratorOptions) (userAgentValues : List String) :
    List (String × List String) :=
  let pav := getPossibleAttributeValues g headerOptions
  let http1C : Option (List (String × List String)) :=
    if userAgentValues.length > 0 then
      some (networkGetConstraintClosure subfuel g.headerGeneratorNetwork
        [("User-Agent", userAgentValues)])
    else none
  let http2C : Option (List (String × List String)) :=
    if userAgentValues.length > 0 then
      some (networkGetConstraintClosure subfuel g.headerGeneratorNetwork
        [("user-agent", userAgentValues)])
    else none
  pav.foldl (fun acc p =>
    let key := p.1
    let values := p.2
    if key = browserHttpNodeName then
      aset acc key (values.filter (fun x =>
        let parts := x.splitOn "|"
        let browserName := parts.headI
        let httpV := (parts.get? 1).getD ""
        let httpValues :=
          if httpV = "1" ∨ http2C.isNone ∨ (http2C.getD []).length = 0 then http1C
          else http2C
        match httpValues with
        | none => true
        | some hv => slicesContains ((alookup hv browserNodeName).getD []) browserName))
    else
      aset acc key (values.filter (fun x =>
        let included1 := http1C.isSome &&
          slicesContains ((alookup (http1C.getD []) key).getD []) x
        let included2 := http2C.isSome &&
          slicesContains ((alookup (http2C.getD []) key).getD []) x
        (http1C.isNone && http2C.isNone) || included1 || included2))) []

/-- The input sample drawn by `GetHeaders` (step 4 of spec section 4.8). -/
def getHeadersInputSample (g : HeaderGenerator) (subfuel : ℕ)
    (options : Option HeaderGeneratorOptions) (userAgentValues : List String)
    (rng : ℕ → ℚ) (k : ℕ) : List (String × String) × ℕ :=
  let headerOptions := mergeOptions g.globalOptions options
  Network.GenerateConsistentSampleWhenPossible g.inputGeneratorNetwork subfuel
    (getHeadersInputConstraints g subfuel headerOptions userAgentValues) rng k

/-- The post-sampling main path of `GetHeaders` (steps 6–11 of spec
section 4.8): generate the header body, inject sec-fetch and
accept-language, strip synthetic and missing entries, merge the
request-dependent headers and order the result. -/
def getHeadersMainPath (g : HeaderGenerator)
    (headerOptions : HeaderGeneratorOptions)
    (requestDependentHeaders : List (String × String))
    (inputSample : List (String × String)) (rng : ℕ → ℚ) (k1 : ℕ) :
    Except String (List (String × String)) × ℕ :=
  let gen := Network.GenerateSample g.headerGeneratorNetwork inputSample rng k1
  let generatedSample := gen.1
  let generatedHttpAndBrowser :=
    prepareHttpBrowserObject ((alookup generatedSample browserHttpNodeName).getD "")
  let isHttp2 := generatedHttpAndBrowser.httpVersion = "2"
  let secFetchAttributeNames :=
    if isHttp2 then http2SecFetchAttributes else http1SecFetchAttributes
  let acceptLanguageFieldName := if isHttp2 then "accept-language" else "Accept-Language"
  let s1 := aset generatedSample acceptLanguageFieldName
    (getAcceptLanguageField g (headerOptions.locales.getD []))
  let genV0 := generatedHttpAndBrowser.version.headI
  let hasSecFetch :=
    (generatedHttpAndBrowser.name = "chrome" ∧ genV0 ≥ 76) ∨
    (generatedHttpAndBrowser.name = "firefox" ∧ genV0 ≥ 90) ∨
    (generatedHttpAndBrowser.name = "edge" ∧ genV0 ≥ 79)
  let s2 :=
    if hasSecFetch then
      aset (aset (aset (aset s1
        ((alookup secFetchAttributeNames "site").getD "") "same-site")
        ((alookup secFetchAttributeNames "mode").getD "") "navigate")
        ((alookup secFetchAttributeNames "user").getD "") "?1")
        ((alookup secFetchAttributeNames "dest").getD "") "document"
    else s1
  let s3 := s2.filter (fun p =>
    !((goToLower p.1 == "connection") && (p.2 == "close")) &&
    !(goStartsWith p.1 "*" || (p.2 == missingValueToken)))
  let s4 := requestDependentHeaders.foldl (fun acc p => aset acc p.1 p.2) s3
  (Except.ok (OrderHeaders g s4
    ((alookup g.headersOrder generatedHttpAndBrowser.name).getD [])), gen.2)

/-- The body of `GetHeaders` at one fuel level: `ih` performs the recursive
calls (HTTP/1 fallback and relaxation), `subfuel` drives the samplers and
closures. -/
def getHeadersBody (g : HeaderGenerator)
    (requestDependentHeaders : List (String × String)) (userAgentValues : List String)
    (rng : ℕ → ℚ) (subfuel : ℕ)
    (ih : Option HeaderGeneratorOptions → ℕ → Except String (List (String × String)) × ℕ)
    (options : Option HeaderGeneratorOptions) (k : ℕ) :
    Except String (List (String × String)) × ℕ :=
  let headerOptions := mergeOptions g.globalOptions options
  let isk := getHeadersInputSample g subfuel options userAgentValues rng k
  let inputSample := isk.1
  let k1 := isk.2
  if inputSample.length = 0 then
    if headerOptions.httpVersion = "1" then
      let newOpts := { headerOptions with httpVersion := "2" }
      let r2 := ih (some newOpts) k1
      match r2.1 with
      | Except.error e => (Except.error e, r2.2)
      | Except.ok headers2 =>
          (Except.ok (OrderHeaders g (convertHeaders headers2) []), r2.2)
    else
      match options, findRelaxationIndex options with
      | some o, some i =>
          if headerOptions.strict then (Except.error overConstrainedMsg, k1)
          else ih (some (applyRelaxation o ((relaxationOrder.get? i).getD ""))) k1
      | _, _ => (Except.error overConstrainedMsg, k1)
  else getHeadersMainPath g headerOptions requestDependentHeaders inputSample rng k1

/-- The fuel-indexed `GetHeaders`, by recursion on the fuel. -/
def GetHeadersF (g : HeaderGenerator)
    (requestDependentHeaders : List (String × String)) (userAgentValues : List String)
    (rng : ℕ → ℚ) :
    ℕ → Option HeaderGeneratorOptions → ℕ → Except String (List (String × String)) × ℕ :=
  Nat.rec (fun _ k => (Except.error fuelExhaustedMsg, k))
    (fun subfuel ih => getHeadersBody g requestDependentHeaders userAgentValues rng subfuel ih)

/-- Embedding of `HeaderGenerator.GetHeaders`.  The fuel bounds the
recursion depth (HTTP/1 fallback plus at most five relaxation steps) and
the sampler recursion; any sufficiently large fuel reproduces the source. -/
def GetHeaders (g : HeaderGenerator) (fuel : ℕ)
    (options : Option HeaderGeneratorOptions)
    (requestDependentHeaders : List (String × String)) (userAgentValues : List String)
    (rng : ℕ → ℚ) (k : ℕ) : Except String (List (String × String)) × ℕ :=
  GetHeadersF g requestDependentHeaders userAgentValues rng fuel options k

/-! ## Fingerprint generator (`fingerprint` package) -/

/-- Go map deletion (`delete(m, k)`). -/
def adel {α : Type} (m : List (String × α)) (k : String) : List (String × α) :=
  m.filter (fun p => !(p.1 == k))

/-- Embedding of the fingerprint-package constant `STRINGIFIED_PREFIX`
(declared outside the available snapshot; its value is fixed by the spec
glossary and by the `network` package constant `StringifiedPrefix`). -/
def stringifiedToken : String := "*STRINGIFIED*"

/-- Embedding of `FingerprintScreenOptions`. -/
structure FingerprintScreenOptions where
  minWidth : Option ℚ
  maxWidth : Option ℚ
  minHeight : Option ℚ
  maxHeight : Option ℚ

/-- The two fields of a decoded `ScreenFingerprint` that the screen filter
reads. -/
structure ScreenRec where
  width : ℚ
  height : ℚ

/-- Embedding of `FingerprintGeneratorOptions`. -/
structure FingerprintGeneratorOptions where
  headerGeneratorOptions : Option HeaderGeneratorOptions
  screen : Option FingerprintScreenOptions
  mockWebRTC : Bool
  slim : Bool

/-- Embedding of `FingerprintGenerator`.  `decodeScreen`, `jsonParse` and
`transformFP` are interface-level collaborators (the `encoding/json`
unmarshalling of screen strings and stringified values, and the
marshal/unmarshal round-trip of `transformFingerprint`); the spec treats
JSON serialization as out of scope, and claim C9 holds for every choice. -/
structure FingerprintGenerator where
  headerGenerator : HeaderGenerator
  fingerprintGeneratorNetwork : Network
  fingerprintGlobalOptions : FingerprintGeneratorOptions
  decodeScreen : String → Option ScreenRec
  jsonParse : String → Option GoVal
  transformFP : List (String × GoVal) → List (String × GoVal)

/-- The empty `HeaderGeneratorOptions` struct (`&header.HeaderGeneratorOptions{}`). -/
def emptyHeaderOptions : HeaderGeneratorOptions :=
  { browsers := none, browserListQuery := "", operatingSystems := none,
    devices := none, locales := none, httpVersion := "", strict := false }

/-- The option merge at the top of `GetFingerprint`. -/
def mergeFingerprintOptions (global : FingerprintGeneratorOptions) :
    Option FingerprintGeneratorOptions → FingerprintGeneratorOptions
  | none =>
    { headerGeneratorOptions := some emptyHeaderOptions, screen := global.screen,
      mockWebRTC := global.mockWebRTC, slim := global.slim }
  | some o =>
    { headerGeneratorOptions := o.headerGeneratorOptions,
      screen := if o.screen.isSome then o.screen else global.screen,
      mockWebRTC := o.mockWebRTC, slim := o.slim }

/-- The pre-loop part of `GetFingerprint`: screen filtering and the closure
over the fingerprint network.  Returns the filtered-values map and the
partial closure (`partialCSP`), or the over-constrained error when the
closure fails under strict options. -/
def getFingerprintSetup (G : FingerprintGenerator) (fuel : ℕ)
    (optToUse : FingerprintGeneratorOptions) :
    Except String (List (String × List String) × Option (List (String × List String))) :=
  match optToUse.screen with
  | none => Except.ok ([], none)
  | some screenOpts =>
    let fv0 : List (String × List String) :=
      match nodesByName G.fingerprintGeneratorNetwork "screen" with
      | none => []
      | some screenNode =>
        let possibleScreens := screenNode.possibleValues.filter (fun screenString =>
          goContains screenString stringifiedToken &&
          (let parts := splitN2 screenString stringifiedToken
           decide (parts.length ≥ 2) &&
           match G.decodeScreen ((parts.get? 1).getD "") with
           | none => false
           | some screen =>
             let minW := screenOpts.minWidth.getD 0
             let maxW := screenOpts.maxWidth.getD 100000
             let minH := screenOpts.minHeight.getD 0
             let maxH := screenOpts.maxHeight.getD 100000
             decide (screen.width ≥ minW ∧ screen.width ≤ maxW ∧
               screen.height ≥ minH ∧ screen.height ≤ maxH)))
        aset [] "screen" possibleScreens
    match GetConstraintClosure fuel G.fingerprintGeneratorNetwork fv0 with
    | Except.error e =>
        if (match optToUse.headerGeneratorOptions with
            | some h => h.strict
            | none => false) then Except.error e
        else Except.ok (adel fv0 "screen", none)
    | Except.ok closure => Except.ok (fv0, some closure)

/-- The retries-exhausted error text of `GetFingerprint`. -/
def retriesMsg : String := "Failed to generate a consistent fingerprint after 10 attempts"

/-- Embedding of `BrowserFingerprintWithHeaders`.  The fingerprint payload
is the decoded raw attribute map passed through the `transformFP`
collaborator, together with the `MockWebRTC`/`Slim` fields the source sets
on the transformed fingerprint. -/
structure BrowserFingerprintWithHeaders where
  headers : List (String × String)
  fingerprintData : List (String × GoVal)
  mockWebRTC : Bool
  slim : Bool

/-- One iteration of the retry loop of `GetFingerprint`: header generation,
constrained fingerprint sampling, decoding and assembly.  `Sum.inl` is a
failed attempt (any `continue` path of the source), carrying the mutated
filtered-values map and rng position; `Sum.inr` is a produced fingerprint. -/
def fpAttempt (G : FingerprintGenerator) (fuel : ℕ)
    (optToUse : FingerprintGeneratorOptions)
    (requestDependentHeaders : List (String × String)) (rng : ℕ → ℚ)
    (cspClosure : Option (List (String × List String)))
    (fv : List (String × List String)) (k : ℕ) :
    (List (String × List String) × ℕ) ⊕
      (BrowserFingerprintWithHeaders × List (String × List String) × ℕ) :=
  let userAgentValues :=
    match cspClosure with
    | some m => (alookup m "userAgent").getD []
    | none => []
  let hres := GetHeaders G.headerGenerator fuel optToUse.headerGeneratorOptions
    requestDependentHeaders userAgentValues rng k
  match hres.1 with
  | Except.error _ => Sum.inl (fv, hres.2)
  | Except.ok headers =>
    let userAgent :=
      match alookup headers "User-Agent" with
      | some ua => ua
      | none => (alookup headers "user-agent").getD ""
    let fv2 := aset fv "userAgent" [userAgent]
    let fpr := Network.GenerateConsistentSampleWhenPossible
      G.fingerprintGeneratorNetwork fuel fv2 rng hres.2
    if fpr.1.length = 0 then Sum.inl (fv2, fpr.2)
    else
      let fingerprintRaw := fpr.1.foldl (fun acc p =>
        aset acc p.1 (
          if p.2 = missingValueToken then GoVal.vNull
          else if goStartsWith p.2 stringifiedToken then
            match G.jsonParse (p.2.drop stringifiedToken.length) with
            | some parsed => parsed
            | none => GoVal.vStr p.2
          else GoVal.vStr p.2)) []
      let screenNil :=
        match alookup fingerprintRaw "screen" with
        | none => true
        | some GoVal.vNull => true
        | some _ => false
      if screenNil then Sum.inl (fv2, fpr.2)
      else
        let acceptLanguageHeaderValue :=
          match alookup headers "Accept-Language" with
          | some al => al
          | none => (alookup headers "accept-language").getD ""
        let acceptedLanguages := (acceptLanguageHeaderValue.splitOn ",").map
          (fun locale => ((locale.splitOn ";").headI).trim)
        let fingerprintRaw2 := aset fingerprintRaw "languages"
          (GoVal.vArr (acceptedLanguages.map GoVal.vStr))
        Sum.inr ({ headers := headers,
                   fingerprintData := G.transformFP fingerprintRaw2,
                   mockWebRTC := optToUse.mockWebRTC,
                   slim := optToUse.slim }, fv2, fpr.2)

/-- The retry loop of `GetFingerprint` (`for generateRetries < 10`), by
recursion on the remaining attempt budget.  The last component counts the
attempts actually performed, an instrumentation of the loop counter. -/
def getFingerprintLoop (G : FingerprintGenerator) (fuel : ℕ)
    (optToUse : FingerprintGeneratorOptions)
    (requestDependentHeaders : List (String × String)) (rng : ℕ → ℚ)
    (cspClosure : Option (List (String × List String))) :
    ℕ → List (String × List String) → ℕ →
      Except String BrowserFingerprintWithHeaders × List (String × List String) × ℕ × ℕ :=
  Nat.rec (fun fv k => (Except.error retriesMsg, fv, k, 0))
    (fun _ ih fv k =>
      match fpAttempt G fuel optToUse requestDependentHeaders rng cspClosure fv k with
      | Sum.inl f =>
          let r := ih f.1 f.2
          (r.1, r.2.1, r.2.2.1, r.2.2.2 + 1)
      | Sum.inr s => (Except.ok s.1, s.2.1, s.2.2, 1))

/-- Embedding of `FingerprintGenerator.GetFingerprint`.  The result carries
the error-or-fingerprint, the final rng position and the number of retry
attempts performed (instrumentation of the loop counter). -/
def GetFingerprint (G : FingerprintGenerator) (fuel : ℕ)
    (options : Option FingerprintGeneratorOptions)
    (requestDependentHeaders : List (String × String)) (rng : ℕ → ℚ) (k : ℕ) :
    Except String BrowserFingerprintWithHeaders × ℕ × ℕ :=
  let optToUse := mergeFingerprintOptions G.fingerprintGlobalOptions options
  match getFingerprintSetup G fuel optToUse with
  | Except.error e => (Except.error e, k, 0)
  | Except.ok st =>
      let r := getFingerprintLoop G fuel optToUse requestDependentHeaders rng st.2
        10 st.1 k
      (r.1, r.2.2.1, r.2.2.2)

/-! ## Specification-side definitions

These definitions are written from the wording of the claims (not from the
source) and are compared with the source embeddings by the refinement
theorems below. -/

/-- Claim C8, spec side: the deeper child of a subtree for a parent value —
present when the subtree has a `deeper` child that maps the value. -/
def deeperChildSpec (t : GoVal) (pv : String) : Option GoVal :=
  match t with
  | GoVal.vMap m =>
      (match alookup m "deeper" with
       | some (GoVal.vMap dm) => alookup dm pv
       | _ => none)
  | _ => none

/-- Claim C8, spec side: the skip child of a subtree. -/
def skipChildSpec (t : GoVal) : Option GoVal :=
  match t with
  | GoVal.vMap m => alookup m "skip"
  | _ => none

/-- Claim C8, spec side: the walk over the CPT described by the claim — at
each level descend into the deeper child for the assigned parent value when
it exists, otherwise into the skip child when it exists, otherwise halt at
the current subtree. -/
def cptWalkSpec : GoVal → List String → List (String × String) → GoVal
  | t, [], _ => t
  | t, p :: rest, assigned =>
    match deeperChildSpec t ((alookup assigned p).getD "") with
    | some sub => cptWalkSpec sub rest assigned
    | none =>
      match skipChildSpec t with
      | some sub => cptWalkSpec sub rest assigned
      | none => t

/-- Claim C8, spec side: the distribution read off a leaf — exactly the
float-valued keys of the final subtree, non-float values ignored. -/
def leafDistributionSpec (t : GoVal) : List (String × ℚ) :=
  match t with
  | GoVal.vMap m =>
      m.foldr (fun p acc =>
        match p.2 with
        | GoVal.vFloat f => (p.1, f) :: acc
        | _ => acc) []
  | _ => []

/-- Claim C8, spec side: the CPT lookup distribution described by the claim. -/
def distributionSpec (n : Node) (assigned : List (String × String)) :
    List (String × ℚ) :=
  leafDistributionSpec (cptWalkSpec n.conditionalProbabilities n.parentNames assigned)

/-- Claim C7, spec side: the quality-suffixed tail of an accept-language
value, position `i` carrying quality `1.0 − 0.1·i` with one decimal. -/
def renderTail : List String → ℕ → String
  | [], _ => ""
  | l :: rest, i =>
      "," ++ l ++ ";q=" ++ fmtOneDec (1 - (i : ℚ) / 10) ++ renderTail rest (i + 1)

/-- Claim C7, spec side: comma-separated locales, the first without a
quality suffix, the one at position `i ≥ 1` with quality `1.0 − 0.1·i`. -/
def renderAcceptLang : List String → String
  | [] => ""
  | l0 :: rest => l0 ++ renderTail rest 1

/-! ## Invariant predicates used by the theorems -/

/-- A header entry admissible in generator output: its name does not begin
with a star, its value is not the missing-value sentinel, and it is not a
`Connection: close` header (in any letter case). -/
def headerEntryOK (p : String × String) : Prop :=
  goStartsWith p.1 "*" = false ∧ p.2 ≠ missingValueToken ∧
  ¬(goToLower p.1 = "connection" ∧ p.2 = "close")

/-- An assignment is consistent with a constraint map: every assigned key
that carries a non-empty constraint list is assigned a value from it. -/
def sampGood (vp : List (String × List String)) (state : List (String × String)) : Prop :=
  ∀ k vals v, alookup vp k = some vals → vals ≠ [] → alookup state k = some v → v ∈ vals

/-- Key monotonicity between two assignments. -/
def keysMono (a b : List (String × String)) : Prop :=
  ∀ k, (alookup a k).isSome → (alookup b k).isSome

/-! ## Concrete fixtures used by witnesses and counterexamples -/

/-- The all-zero draw stream. -/
def rngZero : ℕ → ℚ := fun _ => 0

/-- Fixture: unconstrained root node with two equally likely values. -/
def nodeA : Node :=
  { name := "A", parentNames := [], possibleValues := ["a1", "a2"],
    conditionalProbabilities :=
      GoVal.vMap [("a1", GoVal.vFloat (1/2)), ("a2", GoVal.vFloat (1/2))] }

/-- Fixture: deterministic middle node. -/
def nodeB : Node :=
  { name := "B", parentNames := [], possibleValues := ["b1"],
    conditionalProbabilities := GoVal.vMap [("b1", GoVal.vFloat 1)] }

/-- Fixture: leaf node whose distribution branches on the value of `A`. -/
def nodeC : Node :=
  { name := "C", parentNames := ["A"], possibleValues := ["cbad", "c1"],
    conditionalProbabilities :=
      GoVal.vMap [("deeper", GoVal.vMap
        [("a1", GoVal.vMap [("cbad", GoVal.vFloat 1)]),
         ("a2", GoVal.vMap [("c1", GoVal.vFloat 1)])])] }

/-- Fixture network with three nodes in sampling order `A`, `B`, `C`. -/
def netABC : Network := ⟨[nodeA, nodeB, nodeC]⟩

/-- Fixture constraint map: `A` restricted to both its values, `C` to the
value only compatible with `A = a2`. -/
def vpABC : List (String × List String) := [("A", ["a1", "a2"]), ("C", ["c1"])]

/-- Fixture: parent node for the closure witness. -/
def nodeP : Node :=
  { name := "p", parentNames := [], possibleValues := ["v1"],
    conditionalProbabilities := GoVal.vMap [("v1", GoVal.vFloat 1)] }

/-- Fixture: constrained child node for the closure witness. -/
def nodeN : Node :=
  { name := "n", parentNames := ["p"], possibleValues := ["x"],
    conditionalProbabilities :=
      GoVal.vMap [("deeper", GoVal.vMap [("v1", GoVal.vMap [("x", GoVal.vFloat 1)])])] }

/-- Fixture network for the closure witness. -/
def netPN : Network := ⟨[nodeP, nodeN]⟩

/-- Fixture: single-node input network selecting an operating system. -/
def nodeOS : Node :=
  { name := "*OPERATING_SYSTEM", parentNames := [], possibleValues := ["linux"],
    conditionalProbabilities := GoVal.vMap [("linux", GoVal.vFloat 1)] }

/-- Fixture: single-node header network. -/
def nodeFoo : Node :=
  { name := "foo", parentNames := [], possibleValues := ["bar"],
    conditionalProbabilities := GoVal.vMap [("bar", GoVal.vFloat 1)] }

/-- Fixture input network. -/
def netOS : Network := ⟨[nodeOS]⟩

/-- Fixture header network. -/
def netFoo : Network := ⟨[nodeFoo]⟩

/-- Fixture global options whose operating-system constraint is satisfiable
by `netOS`. -/
def optsOK : HeaderGeneratorOptions :=
  { browsers := none, browserListQuery := "", operatingSystems := some ["linux"],
    devices := none, locales := some ["en-US"], httpVersion := "2", strict := false }

/-- Fixture header generator on which `GetHeaders` succeeds. -/
def genOK : HeaderGenerator :=
  { globalOptions := optsOK, inputGeneratorNetwork := netOS,
    headerGeneratorNetwork := netFoo, uniqueBrowsers := [], headersOrder := [],
    shuffle := fun l => l }

/-- Fixture header generator whose operating-system constraint is
unsatisfiable (the input network only offers `linux`). -/
def genFail : HeaderGenerator :=
  { globalOptions := { optsOK with operatingSystems := some ["windows"] },
    inputGeneratorNetwork := netOS, headerGeneratorNetwork := netFoo,
    uniqueBrowsers := [], headersOrder := [], shuffle := fun l => l }

/-- Fixture header generator: unsatisfiable constraint under HTTP/1. -/
def genFail1 : HeaderGenerator :=
  { genFail with globalOptions := { genFail.globalOptions with httpVersion := "1" } }

/-- Fixture per-call options with only the locale class set. -/
def optsLocOnly : HeaderGeneratorOptions :=
  { browsers := none, browserListQuery := "", operatingSystems := none,
    devices := none, locales := some ["en-US"], httpVersion := "", strict := false }

/-- Fixture fingerprint generator whose header generation always fails. -/
def fpGenFail : FingerprintGenerator :=
  { headerGenerator := genFail, fingerprintGeneratorNetwork := netFoo,
    fingerprintGlobalOptions :=
      { headerGeneratorOptions := none, screen := none,
        mockWebRTC := false, slim := false },
    decodeScreen := fun _ => none, jsonParse := fun _ => none,
    transformFP := fun l => l }

/-! ## Helper lemmas: association lists -/

theorem alookup_aset_self {α : Type} (m : List (String × α)) (k : String) (v : α) :
    alookup (aset m k v) k = some v := by
  induction m with
  | nil => simp [aset, alookup]
  | cons p rest ih =>
    by_cases h : p.1 = k
    · simp [aset, h, alookup]
    · simp [aset, h, alookup, ih]

theorem alookup_aset_ne {α : Type} (m : List (String × α)) (k : String) (v : α)
    (k' : String) (h : k' ≠ k) : alookup (aset m k v) k' = alookup m k' := by
  induction m with
  | nil => simp [aset, alookup, Ne.symm h]
  | cons p rest ih =>
    by_cases h1 : p.1 = k
    · simp [aset, h1, alookup, Ne.symm h, h, ih]
    · simp [aset, h1, alookup, ih]

theorem mem_aset {α : Type} {p : String × α} {m : List (String × α)} {k : String}
    {v : α} (h : p ∈ aset m k v) : p ∈ m ∨ p = (k, v) := by
  induction m with
  | nil => simp [aset] at h; simp [h]
  | cons q rest ih =>
    by_cases h1 : q.1 = k
    · simp [aset, h1] at h
      rcases h with h | h
      · right; simp [h]
      · left; simp [h]
    · simp [aset, h1] at h
      rcases h with h | h
      · left; simp [h]
      · rcases ih h with h2 | h2
        · left; simp [h2]
        · right; exact h2

theorem alookup_mem {α : Type} {m : List (String × α)} {k : String} {v : α}
    (h : alookup m k = some v) : (k, v) ∈ m := by
  induction m with
  | nil => simp [alookup] at h
  | cons q rest ih =>
    by_cases h1 : q.1 = k
    · simp [alookup, h1] at h
      have hq : q = (k, v) := Prod.ext_iff.mpr ⟨h1, h⟩
      rw [← hq]
      exact List.mem_cons_self q rest
    · simp [alookup, h1] at h
      exact List.mem_cons_of_mem q (ih h)

theorem isSome_aset {α : Type} (m : List (String × α)) (k : String) (v : α)
    (k' : String) (h : (alookup m k').isSome) :
    (alookup (aset m k v) k').isSome := by
  by_cases h1 : k' = k
  · rw [h1, alookup_aset_self]; simp
  · rw [alookup_aset_ne m k v k' h1]; exact h

/-! ## Helper lemmas: ASCII case mapping and pascal-casing -/

theorem lowerChar_upperChar (c : Char) : lowerChar (upperChar c) = lowerChar c := by
  by_cases h0 : c = 'a'
  · subst h0; decide
  by_cases h1 : c = 'b'
  · subst h1; decide
  by_cases h2 : c = 'c'
  · subst h2; decide
  by_cases h3 : c = 'd'
  · subst h3; decide
  by_cases h4 : c = 'e'
  · subst h4; decide
  by_cases h5 : c = 'f'
  · subst h5; decide
  by_cases h6 : c = 'g'
  · subst h6; decide
  by_cases h7 : c = 'h'
  · subst h7; decide
  by_cases h8 : c = 'i'
  · subst h8; decide
  by_cases h9 : c = 'j'
  · subst h9; decide
  by_cases h10 : c = 'k'
  · subst h10; decide
  by_cases h11 : c = 'l'
  · subst h11; decide
  by_cases h12 : c = 'm'
  · subst h12; decide
  by_cases h13 : c = 'n'
  · subst h13; decide
  by_cases h14 : c = 'o'
  · subst h14; decide
  by_cases h15 : c = 'p'
  · subst h15; decide
  by_cases h16 : c = 'q'
  · subst h16; decide
  by_cases h17 : c = 'r'
  · subst h17; decide
  by_cases h18 : c = 's'
  · subst h18; decide
  by_cases h19 : c = 't'
  · subst h19; decide
  by_cases h20 : c = 'u'
  · subst h20; decide
  by_cases h21 : c = 'v'
  · subst h21; decide
  by_cases h22 : c = 'w'
  · subst h22; decide
  by_cases h23 : c = 'x'
  · subst h23; decide
  by_cases h24 : c = 'y'
  · subst h24; decide
  by_cases h25 : c = 'z'
  · subst h25; decide
  unfold upperChar
  rw [if_neg h0, if_neg h1, if_neg h2, if_neg h3, if_neg h4, if_neg h5, if_neg h6, if_neg h7, if_neg h8, if_neg h9, if_neg h10, if_neg h11, if_neg h12, if_neg h13, if_neg h14, if_neg h15, if_neg h16, if_neg h17, if_neg h18, if_neg h19, if_neg h20, if_neg h21, if_neg h22, if_neg h23, if_neg h24, if_neg h25]

theorem lowerChar_cases (c : Char) :
    lowerChar c = c ∨ c ∈ ['A', 'B', 'C', 'D', 'E', 'F', 'G', 'H', 'I', 'J', 'K',
      'L', 'M', 'N', 'O', 'P', 'Q', 'R', 'S', 'T', 'U', 'V', 'W', 'X', 'Y', 'Z'] := by
  by_cases h0 : c = 'A'
  · subst h0; right; decide
  by_cases h1 : c = 'B'
  · subst h1; right; decide
  by_cases h2 : c = 'C'
  · subst h2; right; decide
  by_cases h3 : c = 'D'
  · subst h3; right; decide
  by_cases h4 : c = 'E'
  · subst h4; right; decide
  by_cases h5 : c = 'F'
  · subst h5; right; decide
  by_cases h6 : c = 'G'
  · subst h6; right; decide
  by_cases h7 : c = 'H'
  · subst h7; right; decide
  by_cases h8 : c = 'I'
  · subst h8; right; decide
  by_cases h9 : c = 'J'
  · subst h9; right; decide
  by_cases h10 : c = 'K'
  · subst h10; right; decide
  by_cases h11 : c = 'L'
  · subst h11; right; decide
  by_cases h12 : c = 'M'
  · subst h12; right; decide
  by_cases h13 : c = 'N'
  · subst h13; right; decide
  by_cases h14 : c = 'O'
  · subst h14; right; decide
  by_cases h15 : c = 'P'
  · subst h15; right; decide
  by_cases h16 : c = 'Q'
  · subst h16; right; decide
  by_cases h17 : c = 'R'
  · subst h17; right; decide
  by_cases h18 : c = 'S'
  · subst h18; right; decide
  by_cases h19 : c = 'T'
  · subst h19; right; decide
  by_cases h20 : c = 'U'
  · subst h20; right; decide
  by_cases h21 : c = 'V'
  · subst h21; right; decide
  by_cases h22 : c = 'W'
  · subst h22; right; decide
  by_cases h23 : c = 'X'
  · subst h23; right; decide
  by_cases h24 : c = 'Y'
  · subst h24; right; decide
  by_cases h25 : c = 'Z'
  · subst h25; right; decide
  left
  unfold lowerChar
  rw [if_neg h0, if_neg h1, if_neg h2, if_neg h3, if_neg h4, if_neg h5, if_neg h6, if_neg h7, if_neg h8, if_neg h9, if_neg h10, if_neg h11, if_neg h12, if_neg h13, if_neg h14, if_neg h15, if_neg h16, if_neg h17, if_neg h18, if_neg h19, if_neg h20, if_neg h21, if_neg h22, if_neg h23, if_neg h24, if_neg h25]

theorem lowerChar_idem (c : Char) : lowerChar (lowerChar c) = lowerChar c := by
  rcases lowerChar_cases c with h | h
  · rw [h]; exact h
  · fin_cases h <;> decide

theorem lowerChar_eq_star {c : Char} (h : lowerChar c = '*') : c = '*' := by
  rcases lowerChar_cases c with h1 | h1
  · rwa [h1] at h
  · fin_cases h1 <;> revert h <;> decide

theorem splitDash_ne_nil (l : List Char) : splitDash l ≠ [] := by
  induction l with
  | nil => simp [splitDash]
  | cons c rest ih =>
    by_cases h : c = '-'
    · simp [splitDash, h]
    · cases hs : splitDash rest with
      | nil => simp [splitDash, h, hs]
      | cons p ps => simp [splitDash, h, hs]

theorem joinDash_splitDash (l : List Char) : joinDash (splitDash l) = l := by
  induction l with
  | nil => rfl
  | cons c rest ih =>
    have hne := splitDash_ne_nil rest
    cases hs : splitDash rest with
    | nil => exact absurd hs hne
    | cons p ps =>
      by_cases h : c = '-'
      · subst h
        have h1 : splitDash ('-' :: rest) = [] :: p :: ps := by simp [splitDash, hs]
        rw [h1]
        show [] ++ '-' :: joinDash (p :: ps) = '-' :: rest
        rw [← hs, ih]
        simp
      · have h1 : splitDash (c :: rest) = (c :: p) :: ps := by simp [splitDash, h, hs]
        rw [h1]
        cases ps with
        | nil =>
          have h2 : p = rest := by
            have h3 := ih
            rw [hs] at h3
            simpa [joinDash] using h3
          simp [joinDash, h2]
        | cons q qs =>
          have h2 : p ++ '-' :: joinDash (q :: qs) = rest := by
            have h3 := ih
            rw [hs] at h3
            simpa [joinDash] using h3
          show (c :: p) ++ '-' :: joinDash (q :: qs) = c :: rest
          simp [← h2]

theorem lowerChar_dash : lowerChar '-' = '-' := by decide

theorem map_lowerChar_joinDash (ps : List (List Char)) :
    (joinDash ps).map lowerChar = joinDash (ps.map (List.map lowerChar)) := by
  induction ps with
  | nil => rfl
  | cons p ps ih =>
    cases ps with
    | nil => simp [joinDash]
    | cons q qs => simp [joinDash, ih, lowerChar_dash]

theorem map_lowerChar_lowerChar (cs : List Char) :
    (cs.map lowerChar).map lowerChar = cs.map lowerChar := by
  induction cs <;> simp_all [lowerChar_idem]

theorem map_lowerChar_capPart (p : List Char) :
    (capPart p).map lowerChar = p.map lowerChar := by
  cases p with
  | nil => rfl
  | cons c cs =>
    simp only [capPart, List.map_cons, lowerChar_upperChar, map_lowerChar_lowerChar]

theorem map_capPart_chain (ps : List (List Char)) :
    (ps.map capPart).map (List.map lowerChar) = ps.map (List.map lowerChar) := by
  induction ps <;> simp_all [map_lowerChar_capPart]

theorem pascalize_toLower (s : String) : goToLower (pascalize s) = goToLower s := by
  unfold goToLower pascalize
  congr 1
  show (joinDash ((splitDash s.data).map capPart)).map lowerChar = s.data.map lowerChar
  rw [map_lowerChar_joinDash, map_capPart_chain, ← map_lowerChar_joinDash,
    joinDash_splitDash]

theorem goStartsWith_star_iff (s : String) :
    goStartsWith s "*" = true ↔ ∃ t, s.data = '*' :: t := by
  unfold goStartsWith
  cases hd : s.data with
  | nil => simp [List.isPrefixOf]
  | cons c rest =>
    show (List.isPrefixOf ['*'] (c :: rest)) = true ↔ _
    constructor
    · intro h
      have h1 : ('*' == c) = true := by simpa [List.isPrefixOf] using h
      have h2 : c = '*' := (beq_iff_eq.mp h1).symm
      exact ⟨rest, by rw [h2]⟩
    · intro h
      obtain ⟨t, ht⟩ := h
      have h2 : c = '*' := by
        injection ht with hh1 hh2
      subst h2
      simp [List.isPrefixOf]

theorem goToLower_data (s : String) : (goToLower s).data = s.data.map lowerChar := rfl

theorem goStartsWith_star_of_toLower {s t : String} (h : goToLower s = goToLower t)
    (hs : goStartsWith s "*" = true) : goStartsWith t "*" = true := by
  obtain ⟨u, hu⟩ := (goStartsWith_star_iff s).mp hs
  have hd : s.data.map lowerChar = t.data.map lowerChar := by
    have := congrArg String.data h
    rwa [goToLower_data, goToLower_data] at this
  rw [hu] at hd
  cases ht : t.data with
  | nil => rw [ht] at hd; simp at hd
  | cons c rest =>
    rw [ht] at hd
    simp at hd
    have hc : lowerChar c = '*' := by
      have := hd.1
      rw [← this]
      decide
    rw [goStartsWith_star_iff]
    exact ⟨rest, by rw [ht, lowerChar_eq_star hc]⟩

theorem convertName_ok {k v : String} (h : headerEntryOK (k, v)) :
    headerEntryOK (convertName k, v) := by
  obtain ⟨hstar, hmiss, hconn⟩ := h
  by_cases h1 : goStartsWith k "sec-ch-ua" = true
  · have he : convertName k = k := by unfold convertName; rw [if_pos h1]
    rw [he]; exact ⟨hstar, hmiss, hconn⟩
  · by_cases h2 : k = "dnt" ∨ k = "rtt" ∨ k = "ect"
    · rcases h2 with h2 | h2 | h2
      · subst h2
        have he : convertName "dnt" = "DNT" := by decide
        rw [he]
        exact ⟨show goStartsWith "DNT" "*" = false by decide, hmiss,
          fun hc => absurd (show goToLower "DNT" = "connection" from hc.1) (by decide)⟩
      · subst h2
        have he : convertName "rtt" = "RTT" := by decide
        rw [he]
        exact ⟨show goStartsWith "RTT" "*" = false by decide, hmiss,
          fun hc => absurd (show goToLower "RTT" = "connection" from hc.1) (by decide)⟩
      · subst h2
        have he : convertName "ect" = "ECT" := by decide
        rw [he]
        exact ⟨show goStartsWith "ECT" "*" = false by decide, hmiss,
          fun hc => absurd (show goToLower "ECT" = "connection" from hc.1) (by decide)⟩
    · have he : convertName k = pascalize k := by
        unfold convertName; rw [if_neg h1, if_neg h2]
      rw [he]
      refine ⟨?_, hmiss, ?_⟩
      · by_cases h3 : goStartsWith (pascalize k) "*" = true
        · have h4 := goStartsWith_star_of_toLower (pascalize_toLower k) h3
          rw [h4] at hstar
          exact absurd hstar (by decide)
        · simpa using h3
      · intro hc
        apply hconn
        refine ⟨?_, hc.2⟩
        rw [← pascalize_toLower k]
        exact hc.1

/-! ## Helper lemmas: the node sampler -/

theorem samplePick_mem (l : List String) (probs : List (String × ℚ)) (anchor cum : ℚ)
    (chosen : String) :
    samplePick l probs anchor cum chosen = chosen ∨ samplePick l probs anchor cum chosen ∈ l := by
  induction l generalizing cum with
  | nil => left; rfl
  | cons v rest ih =>
    show (if anchor < cum + ((alookup probs v).getD 0) then v else _) = _ ∨ _
    by_cases h : anchor < cum + ((alookup probs v).getD 0)
    · right; simp [samplePick, h]
    · rcases ih (cum + ((alookup probs v).getD 0)) with h1 | h1
      · left; simpa [samplePick, h] using h1
      · right; simp [samplePick, h, h1]

theorem sampleRandom_mem (l : List String) (tp : ℚ) (probs : List (String × ℚ))
    (rng : ℕ → ℚ) (k : ℕ) (hne : l ≠ []) :
    (sampleRandomValueFromPossibilities l tp probs rng k).1 ∈ l := by
  cases l with
  | nil => exact absurd rfl hne
  | cons v0 rest =>
    show samplePick (v0 :: rest) probs (rng k * tp) 0 v0 ∈ v0 :: rest
    rcases samplePick_mem (v0 :: rest) probs (rng k * tp) 0 v0 with h | h
    · rw [h]; exact List.mem_cons_self v0 rest
    · exact h

theorem samplePick_allZero (l : List String) (probs : List (String × ℚ)) (anchor : ℚ)
    (chosen : String) (hz : ∀ v ∈ l, (alookup probs v).getD 0 = 0)
    (ha : ¬ anchor < 0) :
    samplePick l probs anchor 0 chosen = chosen := by
  induction l with
  | nil => rfl
  | cons v rest ih =>
    have hv : (alookup probs v).getD 0 = 0 := hz v (List.mem_cons_self v rest)
    show (if anchor < 0 + ((alookup probs v).getD 0) then v else _) = _
    rw [hv]
    simp only [add_zero, if_neg ha]
    exact ih (fun w hw => hz w (List.mem_cons_of_mem v hw))

theorem list_map_sum_zero {l : List String} {f : String → ℚ}
    (hnn : ∀ x ∈ l, 0 ≤ f x) (hz : (l.map f).sum = 0) : ∀ x ∈ l, f x = 0 := by
  induction l with
  | nil => intro x hx; simp at hx
  | cons a rest ih =>
    have h1 : 0 ≤ f a := hnn a (List.mem_cons_self a rest)
    have h2 : 0 ≤ (rest.map f).sum := by
      apply List.sum_nonneg
      intro x hx
      obtain ⟨y, hy, hxy⟩ := List.mem_map.mp hx
      rw [← hxy]
      exact hnn y (List.mem_cons_of_mem a hy)
    simp only [List.map_cons, List.sum_cons] at hz
    have hfa : f a = 0 := by linarith
    have hrest : (rest.map f).sum = 0 := by linarith
    intro x hx
    rcases List.mem_cons.mp hx with h | h
    · rw [h]; exact hfa
    · exact ih (fun y hy => hnn y (List.mem_cons_of_mem a hy)) hrest x h

theorem sampleRandom_allZero (l : List String) (tp : ℚ) (probs : List (String × ℚ))
    (rng : ℕ → ℚ) (k : ℕ) (hne : l ≠ [])
    (hz : ∀ v ∈ l, (alookup probs v).getD 0 = 0) :
    (sampleRandomValueFromPossibilities l tp probs rng k).1 = l.headI := by
  cases l with
  | nil => exact absurd rfl hne
  | cons v0 rest =>
    show samplePick (v0 :: rest) probs (rng k * tp) 0 v0 = v0
    by_cases ha : rng k * tp < 0
    · show (if rng k * tp < 0 + ((alookup probs v0).getD 0) then v0 else _) = v0
      rw [hz v0 (List.mem_cons_self v0 rest)]
      simp only [add_zero, if_pos ha]
    · exact samplePick_allZero (v0 :: rest) probs (rng k * tp) v0 hz ha

/-- Claim C10: for every non-empty support list and every draw,
`sampleRandomValueFromPossibilities` returns an element of the support; and
when the total probability over the support is zero (the weights being
non-negative as the data model requires, e.g. every supported value having
weight zero) it deterministically returns the first element of the list
rather than reporting failure. -/
theorem spec_c10_sample_support (possibleValues : List String) (totalProbability : ℚ)
    (probabilities : List (String × ℚ)) (rng : ℕ → ℚ) (k : ℕ)
    (hne : possibleValues ≠ []) :
    (sampleRandomValueFromPossibilities possibleValues totalProbability probabilities
      rng k).1 ∈ possibleValues ∧
    ((∀ v ∈ possibleValues, 0 ≤ (alookup probabilities v).getD 0) →
     (possibleValues.map (fun v => (alookup probabilities v).getD 0)).sum = 0 →
     (sampleRandomValueFromPossibilities possibleValues totalProbability probabilities
       rng k).1 = possibleValues.headI) := by
  constructor
  · exact sampleRandom_mem possibleValues totalProbability probabilities rng k hne
  · intro hnn hz
    exact sampleRandom_allZero possibleValues totalProbability probabilities rng k hne
      (list_map_sum_zero hnn hz)

/-- Witness for claim C10 at a concrete support list and the all-zero
distribution. -/
theorem spec_c10_sample_support_witness :
    (sampleRandomValueFromPossibilities ["a", "b"] 0 [] rngZero 0).1 ∈ ["a", "b"] ∧
    ((∀ v ∈ ["a", "b"], (0 : ℚ) ≤ (alookup ([] : List (String × ℚ)) v).getD 0) →
     ((["a", "b"].map (fun v => (alookup ([] : List (String × ℚ)) v).getD 0)).sum = 0) →
     (sampleRandomValueFromPossibilities ["a", "b"] 0 [] rngZero 0).1 =
       (["a", "b"] : List String).headI) :=
  spec_c10_sample_support ["a", "b"] 0 [] rngZero 0 (by decide)

/-! ## Claim C8: the CPT lookup walk -/

theorem cptWalk_eq_spec (ps : List String) (t : GoVal) (pv : List (String × String)) :
    cptWalkGo t ps pv = cptWalkSpec t ps pv := by
  induction ps generalizing t with
  | nil => cases t <;> rfl
  | cons p rest ih =>
    cases t with
    | vMap m =>
      simp only [cptWalkGo, cptWalkSpec, deeperChildSpec, skipChildSpec]
      cases hd : alookup m "deeper" with
      | none =>
        cases hs : alookup m "skip" with
        | none => simp [hd, hs]
        | some sk => simp [hd, hs, ih]
      | some dv =>
        cases dv with
        | vMap dm =>
          cases hdd : alookup dm ((alookup pv p).getD "") with
          | some val => simp [hd, hdd, ih]
          | none =>
            cases hs : alookup m "skip" with
            | none => simp [hd, hdd, hs]
            | some sk => simp [hd, hdd, hs, ih]
        | vFloat q =>
          cases hs : alookup m "skip" with
          | none => simp [hd, hs]
          | some sk => simp [hd, hs, ih]
        | vStr s =>
          cases hs : alookup m "skip" with
          | none => simp [hd, hs]
          | some sk => simp [hd, hs, ih]
        | vBool b =>
          cases hs : alookup m "skip" with
          | none => simp [hd, hs]
          | some sk => simp [hd, hs, ih]
        | vNull =>
          cases hs : alookup m "skip" with
          | none => simp [hd, hs]
          | some sk => simp [hd, hs, ih]
        | vArr items =>
          cases hs : alookup m "skip" with
          | none => simp [hd, hs]
          | some sk => simp [hd, hs, ih]
    | vFloat q => rfl
    | vStr s => rfl
    | vBool b => rfl
    | vNull => rfl
    | vArr items => rfl

theorem extractFloats_eq_spec (t : GoVal) : extractFloats t = leafDistributionSpec t := by
  cases t with
  | vMap m =>
    show List.filterMap _ m = _
    simp only [leafDistributionSpec]
    induction m with
    | nil => rfl
    | cons p rest ih =>
      cases p with
      | mk k v =>
        cases v <;> simp [List.filterMap_cons, ih]
  | vFloat q => rfl
  | vStr s => rfl
  | vBool b => rfl
  | vNull => rfl
  | vArr items => rfl

/-- Claim C8: the CPT lookup `distribution(node, assigned)` walks the
conditional-probability tree over the parent names in order — descending
into the deeper child when it maps the assigned parent value, otherwise into
the skip child when present, otherwise halting at the current subtree — and
the returned distribution consists of exactly the float-valued keys of the
final subtree, with non-float values ignored. -/
theorem spec_c8_cpt_walk (n : Node) (assigned : List (String × String)) :
    getProbabilitiesGivenKnownValues n assigned = distributionSpec n assigned := by
  unfold getProbabilitiesGivenKnownValues distributionSpec
  rw [cptWalk_eq_spec, extractFloats_eq_spec]

/-! ## Claim C2: the backtracking sampler leaks writes of failed branches -/

/-- Claim C2 (evaluation at the failing input): in network `netABC` under
constraints `vpABC`, the recursive descent entered from depth 0 with the
working assignment `{A ↦ a1}` fails (returns the empty sample), yet the
working assignment it hands back still contains the key `B ↦ b1`, which was
written only during the failed branch (it is absent from the assignment the
branch started from).  The caller at depth 0 therefore observes a key
written by the failed deeper branch, contradicting the claimed frame
property: the source mutates the shared map in place and neither clones on
descend nor removes assignments on backtrack. -/
theorem spec_c2_backtrack_leak_eval :
    (recursivelyGenerateConsistentSampleWhenPossible netABC 10
      [("A", "a1")] vpABC 1 rngZero 0).1 = [] ∧
    alookup (recursivelyGenerateConsistentSampleWhenPossible netABC 10
      [("A", "a1")] vpABC 1 rngZero 0).2.1 "B" = some "b1" ∧
    alookup [("A", "a1")] "B" = (none : Option String) := by
  refine ⟨?_, ?_, ?_⟩ <;> with_unfolding_all rfl

/-! ## Claim C1: constrained samples respect the restrictions -/

theorem sampleAccording_vp (n : Node) (pv : List (String × String))
    (vpl banned : List String) (rng : ℕ → ℚ) (k : ℕ)
    (hne : (SampleAccordingToRestrictions n pv vpl banned rng k).1 ≠ "")
    (hvp : vpl ≠ []) :
    (SampleAccordingToRestrictions n pv vpl banned rng k).1 ∈ vpl := by
  unfold SampleAccordingToRestrictions at *
  have hlen : vpl.length ≠ 0 := fun h => hvp (List.length_eq_zero.mp h)
  simp only [if_neg hlen] at *
  set probs := getProbabilitiesGivenKnownValues n pv with hprobs
  set validValues := vpl.filter (fun v =>
    !(slicesContains banned v) && slicesContains (probs.map (fun p => p.1)) v)
    with hvalid
  by_cases hv : validValues.length = 0
  · rw [if_pos hv] at hne
    exact absurd rfl hne
  · rw [if_neg hv] at hne ⊢
    have hvne : validValues ≠ [] := fun h => hv (by rw [h]; rfl)
    have hmem := sampleRandom_mem validValues
      ((validValues.map (fun v => (alookup probs v).getD 0)).sum) probs rng k hvne
    exact (List.mem_filter.mp hmem).1

theorem sampGood_nil (vp : List (String × List String)) : sampGood vp [] := by
  intro k vals v _ _ hlk
  simp [alookup] at hlk

theorem sampGood_write {vp : List (String × List String)}
    {state : List (String × String)} (hg : sampGood vp state) (nm v : String)
    (hc : ∀ vals, alookup vp nm = some vals → vals ≠ [] → v ∈ vals) :
    sampGood vp (aset state nm v) := by
  intro k vals w hvp hvne hlk
  by_cases h : k = nm
  · subst h
    rw [alookup_aset_self] at hlk
    have : v = w := by injection hlk
    rw [← this]
    exact hc vals hvp hvne
  · rw [alookup_aset_ne state nm v k h] at hlk
    exact hg k vals w hvp hvne hlk

theorem keysMono_refl (a : List (String × String)) : keysMono a a := fun _ h => h

theorem keysMono_trans {a b c : List (String × String)} (h1 : keysMono a b)
    (h2 : keysMono b c) : keysMono a c := fun k h => h2 k (h1 k h)

theorem keysMono_aset (state : List (String × String)) (nm v : String) :
    keysMono state (aset state nm v) := fun k h => isSome_aset state nm v k h

theorem samplerFuns_zero (bn : Network) (vp : List (String × List String)) (rng : ℕ → ℚ) :
    samplerFuns bn vp rng 0 =
      ((fun state _ k => ([], state, k)), (fun state _ _ _ k => ([], state, k))) := rfl

theorem samplerFuns_succ (bn : Network) (vp : List (String × List String)) (rng : ℕ → ℚ)
    (n : ℕ) :
    samplerFuns bn vp rng (n + 1) = samplerStep bn vp rng (samplerFuns bn vp rng n) := rfl

theorem samplerInv (bn : Network) (vp : List (String × List String)) (rng : ℕ → ℚ) :
    ∀ fuel : ℕ,
    (∀ state depth k,
      ((sampGood vp state → sampGood vp ((samplerFuns bn vp rng fuel).1 state depth k).2.1) ∧
       keysMono state ((samplerFuns bn vp rng fuel).1 state depth k).2.1) ∧
      (((samplerFuns bn vp rng fuel).1 state depth k).1 ≠ [] →
        ((samplerFuns bn vp rng fuel).1 state depth k).1 =
          ((samplerFuns bn vp rng fuel).1 state depth k).2.1 ∧
        ∀ i, depth ≤ i → ∀ hi : i < bn.nodesInSamplingOrder.length,
          (alookup ((samplerFuns bn vp rng fuel).1 state depth k).1
            (bn.nodesInSamplingOrder.get ⟨i, hi⟩).name).isSome = true)) ∧
    (∀ state depth banned k, ∀ h0 : depth < bn.nodesInSamplingOrder.length,
      ((sampGood vp state → sampGood vp ((samplerFuns bn vp rng fuel).2 state depth
          (bn.nodesInSamplingOrder.get ⟨depth, h0⟩) banned k).2.1) ∧
       keysMono state ((samplerFuns bn vp rng fuel).2 state depth
          (bn.nodesInSamplingOrder.get ⟨depth, h0⟩) banned k).2.1) ∧
      (((samplerFuns bn vp rng fuel).2 state depth
          (bn.nodesInSamplingOrder.get ⟨depth, h0⟩) banned k).1 ≠ [] →
        ((samplerFuns bn vp rng fuel).2 state depth
          (bn.nodesInSamplingOrder.get ⟨depth, h0⟩) banned k).1 =
          ((samplerFuns bn vp rng fuel).2 state depth
            (bn.nodesInSamplingOrder.get ⟨depth, h0⟩) banned k).2.1 ∧
        ∀ i, depth ≤ i → ∀ hi : i < bn.nodesInSamplingOrder.length,
          (alookup ((samplerFuns bn vp rng fuel).2 state depth
            (bn.nodesInSamplingOrder.get ⟨depth, h0⟩) banned k).1
            (bn.nodesInSamplingOrder.get ⟨i, hi⟩).name).isSome = true)) := by
  intro fuel
  induction fuel with
  | zero =>
    constructor
    · intro state depth k
      exact ⟨⟨fun hg => hg, keysMono_refl state⟩, fun hne => absurd rfl hne⟩
    · intro state depth banned k h0
      exact ⟨⟨fun hg => hg, keysMono_refl state⟩, fun hne => absurd rfl hne⟩
  | succ n ih =>
    constructor
    · intro state depth k
      rw [samplerFuns_succ]
      simp only [samplerStep]
      by_cases hd : depth < bn.nodesInSamplingOrder.length
      · simp only [dif_pos hd]
        exact ih.2 state depth [] k hd
      · simp only [dif_neg hd]
        refine ⟨⟨fun hg => hg, keysMono_refl state⟩, fun _ => ⟨by trivial, ?_⟩⟩
        intro i hdi hi
        exact absurd (lt_of_le_of_lt hdi hi) hd
    · intro state depth banned k h0
      rw [samplerFuns_succ]
      simp only [samplerStep]
      set nd := bn.nodesInSamplingOrder.get ⟨depth, h0⟩ with hnd
      set sv := SampleAccordingToRestrictions nd state ((alookup vp nd.name).getD [])
        banned rng k with hsv
      by_cases hemp : sv.1 = ""
      · simp only [if_pos hemp]
        exact ⟨⟨fun hg => hg, keysMono_refl state⟩, fun hne => absurd rfl hne⟩
      · simp only [if_neg hemp]
        have hwrite : ∀ vals, alookup vp nd.name = some vals → vals ≠ [] → sv.1 ∈ vals := by
          intro vals hv hvne
          have hm := sampleAccording_vp nd state ((alookup vp nd.name).getD [])
            banned rng k (by rw [← hsv]; exact hemp) (by rw [hv]; simpa using hvne)
          rw [← hsv] at hm
          rw [hv] at hm
          simpa using hm
        have hgood1 : sampGood vp state → sampGood vp (aset state nd.name sv.1) :=
          fun hg => sampGood_write hg nd.name sv.1 hwrite
        set st1 := aset state nd.name sv.1 with hst1
        by_cases hdeep : depth + 1 < bn.nodesInSamplingOrder.length
        · simp only [if_pos hdeep]
          set dp := (samplerFuns bn vp rng n).1 st1 (depth + 1) sv.2 with hdp
          obtain ⟨⟨ih1good, ih1mono⟩, ih1succ⟩ := (ih.1) st1 (depth + 1) sv.2
          rw [← hdp] at ih1good ih1mono ih1succ
          by_cases hpos : dp.1.length > 0
          · simp only [if_pos hpos]
            have hne1 : dp.1 ≠ [] := by
              intro hx
              rw [hx] at hpos
              simp at hpos
            obtain ⟨heq1, hnames1⟩ := ih1succ hne1
            refine ⟨⟨fun hg => ih1good (hgood1 hg),
              keysMono_trans (keysMono_aset state nd.name sv.1) ih1mono⟩,
              fun _ => ⟨heq1, ?_⟩⟩
            intro i hdi hi
            rcases Nat.lt_or_ge i (depth + 1) with hlt | hge
            · have hieq : i = depth := Nat.le_antisymm (Nat.lt_succ_iff.mp hlt) hdi
              subst hieq
              rw [heq1]
              exact ih1mono nd.name (by rw [hst1, alookup_aset_self]; rfl)
            · exact hnames1 i hge hi
          · simp only [if_neg hpos]
            have loopIH := (ih.2) dp.2.1 depth (banned ++ [sv.1]) dp.2.2 h0
            rw [← hnd] at loopIH
            obtain ⟨⟨lg, lm⟩, ls⟩ := loopIH
            exact ⟨⟨fun hg => lg (ih1good (hgood1 hg)),
              keysMono_trans (keysMono_aset state nd.name sv.1)
                (keysMono_trans ih1mono lm)⟩, ls⟩
        · simp only [if_neg hdeep]
          refine ⟨⟨hgood1, keysMono_aset state nd.name sv.1⟩, fun _ => ⟨by trivial, ?_⟩⟩
          intro i hdi hi
          have hieq : i = depth := by omega
          subst hieq
          rw [hst1, alookup_aset_self]
          rfl

/-- Claim C1: for every network and constraint map, a non-empty sample from
`GenerateConsistentSampleWhenPossible` maps every constrained key that names
a node of the network and carries a non-empty allowed-value list to a value
from that list. -/
theorem spec_c1_consistent_sample (bn : Network) (fuel : ℕ)
    (vp : List (String × List String)) (rng : ℕ → ℚ) (K : ℕ)
    (hne : (bn.GenerateConsistentSampleWhenPossible fuel vp rng K).1 ≠ [])
    (k : String) (vals : List String) (hk : alookup vp k = some vals)
    (hvne : vals ≠ []) (hnode : ∃ nd ∈ bn.nodesInSamplingOrder, nd.name = k) :
    ∃ v, alookup (bn.GenerateConsistentSampleWhenPossible fuel vp rng K).1 k = some v ∧
      v ∈ vals := by
  obtain ⟨h1, _⟩ := samplerInv bn vp rng fuel
  obtain ⟨⟨hgood, _⟩, hsucc⟩ := h1 [] 0 K
  have hne1 : ((samplerFuns bn vp rng fuel).1 [] 0 K).1 ≠ [] := hne
  obtain ⟨heq, hnames⟩ := hsucc hne1
  obtain ⟨nd, hmem, hname⟩ := hnode
  obtain ⟨⟨i, hi⟩, hget⟩ := List.mem_iff_get.mp hmem
  have hsome := hnames i (Nat.zero_le i) hi
  rw [hget, hname] at hsome
  obtain ⟨v, hv⟩ := Option.isSome_iff_exists.mp hsome
  refine ⟨v, hv, ?_⟩
  have hg2 : sampGood vp ((samplerFuns bn vp rng fuel).1 [] 0 K).2.1 :=
    hgood (sampGood_nil vp)
  rw [heq] at hv
  exact hg2 k vals v hk hvne hv

/-- Witness for claim C1: the concrete network `netABC` under `vpABC`
produces a non-empty sample whose entry for the constrained node `C` lies in
its allowed list. -/
theorem spec_c1_consistent_sample_witness :
    ∃ v, alookup (netABC.GenerateConsistentSampleWhenPossible 12 vpABC rngZero 0).1 "C"
      = some v ∧ v ∈ ["c1"] :=
  spec_c1_consistent_sample netABC 12 vpABC rngZero 0
    (by with_unfolding_all decide) "C" ["c1"] (by with_unfolding_all rfl)
    (by decide) (by decide)

/-! ## Claim C3: the constraint closure only narrows user constraints -/

theorem slicesContains_iff (l : List String) (v : String) :
    slicesContains l v = true ↔ v ∈ l := by
  induction l with
  | nil => simp [slicesContains]
  | cons a rest ih =>
    by_cases h : a = v
    · simp [slicesContains, h]
    · have h2 : ¬ v = a := fun hh => h hh.symm
      simp [slicesContains, h, ih, h2]

theorem arrayInter_sub_left {a b : List String} {y : String}
    (h : y ∈ ArrayIntersection a b) : y ∈ a := (List.mem_filter.mp h).1

theorem arrayInter_sub_right {a b : List String} {y : String}
    (h : y ∈ ArrayIntersection a b) : y ∈ b :=
  (slicesContains_iff b y).mp (List.mem_filter.mp h).2

theorem isSome_aset_inv {α : Type} {m : List (String × α)} {kk k : String} {v : α}
    (h : (alookup (aset m kk v) k).isSome) : (alookup m k).isSome ∨ k = kk := by
  by_cases hk : k = kk
  · right; exact hk
  · left; rwa [alookup_aset_ne m kk v k hk] at h

theorem mergeSet_sub (set : List (String × List String)) :
    ∀ r r', closureMergeSet set r = Except.ok r' →
    (∀ k xs', alookup r' k = some xs' → ∀ xs, alookup r k = some xs →
      ∀ y ∈ xs', y ∈ xs) ∧
    (∀ k, (alookup r k).isSome → (alookup r' k).isSome) := by
  induction set with
  | nil =>
    intro r r' h
    simp only [closureMergeSet] at h
    injection h with h
    subst h
    exact ⟨fun k xs' hx' xs hx y hy => by
        rw [hx'] at hx
        injection hx with hh
        rw [← hh]
        exact hy,
      fun k hk => hk⟩
  | cons p rest ih =>
    intro r r' h
    obtain ⟨kk, vals⟩ := p
    cases halk : alookup r kk with
    | none =>
      simp only [closureMergeSet, halk] at h
      by_cases hlen : vals.length = 0
      · rw [if_pos hlen] at h; exact absurd h (by simp)
      · rw [if_neg hlen] at h
        obtain ⟨ihsub, ihmono⟩ := ih (aset r kk vals) r' h
        constructor
        · intro k xs' hx' xs hx y hy
          by_cases hk : k = kk
          · subst hk; rw [hx] at halk; exact absurd halk (by simp)
          · exact ihsub k xs' hx' xs (by rwa [alookup_aset_ne r kk vals k hk]) y hy
        · intro k hk
          exact ihmono k (isSome_aset r kk vals k hk)
    | some existing =>
      simp only [closureMergeSet, halk] at h
      by_cases hlen : (ArrayIntersection existing vals).length = 0
      · rw [if_pos hlen] at h; exact absurd h (by simp)
      · rw [if_neg hlen] at h
        obtain ⟨ihsub, ihmono⟩ := ih (aset r kk (ArrayIntersection existing vals)) r' h
        constructor
        · intro k xs' hx' xs hx y hy
          by_cases hk : k = kk
          · subst hk
            rw [hx] at halk
            injection halk with he
            subst he
            have hmem := ihsub k xs' hx' (ArrayIntersection xs vals)
              (by rw [alookup_aset_self]) y hy
            exact arrayInter_sub_left hmem
          · exact ihsub k xs' hx' xs
              (by rwa [alookup_aset_ne r kk (ArrayIntersection existing vals) k hk]) y hy
        · intro k hk
          exact ihmono k (isSome_aset r kk (ArrayIntersection existing vals) k hk)

theorem mergeSet_present (set : List (String × List String)) :
    ∀ r r', closureMergeSet set r = Except.ok r' →
    ∀ k, (alookup set k).isSome → (alookup r' k).isSome := by
  induction set with
  | nil => intro r r' h k hk; simp [alookup] at hk
  | cons p rest ih =>
    intro r r' h k hk
    obtain ⟨kk, vals⟩ := p
    cases halk : alookup r kk with
    | none =>
      simp only [closureMergeSet, halk] at h
      by_cases hlen : vals.length = 0
      · rw [if_pos hlen] at h; exact absurd h (by simp)
      · rw [if_neg hlen] at h
        by_cases hkk : k = kk
        · subst hkk
          exact (mergeSet_sub rest _ _ h).2 k (by rw [alookup_aset_self]; rfl)
        · have hkk2 : ¬ kk = k := fun hh => hkk hh.symm
          exact ih (aset r kk vals) r' h k (by simpa [alookup, hkk2] using hk)
    | some existing =>
      simp only [closureMergeSet, halk] at h
      by_cases hlen : (ArrayIntersection existing vals).length = 0
      · rw [if_pos hlen] at h; exact absurd h (by simp)
      · rw [if_neg hlen] at h
        by_cases hkk : k = kk
        · subst hkk
          exact (mergeSet_sub rest _ _ h).2 k (by rw [alookup_aset_self]; rfl)
        · have hkk2 : ¬ kk = k := fun hh => hkk hh.symm
          exact ih (aset r kk (ArrayIntersection existing vals)) r' h k
            (by simpa [alookup, hkk2] using hk)

theorem mergeSet_keys (set : List (String × List String)) :
    ∀ r r', closureMergeSet set r = Except.ok r' →
    ∀ k, (alookup r' k).isSome → (alookup r k).isSome ∨ (alookup set k).isSome := by
  induction set with
  | nil =>
    intro r r' h k hk
    simp only [closureMergeSet] at h
    injection h with h
    subst h
    left; exact hk
  | cons p rest ih =>
    intro r r' h k hk
    obtain ⟨kk, vals⟩ := p
    cases halk : alookup r kk with
    | none =>
      simp only [closureMergeSet, halk] at h
      by_cases hlen : vals.length = 0
      · rw [if_pos hlen] at h; exact absurd h (by simp)
      · rw [if_neg hlen] at h
        rcases ih (aset r kk vals) r' h k hk with h1 | h1
        · rcases isSome_aset_inv h1 with h2 | h2
          · left; exact h2
          · right; subst h2; simp [alookup]
        · right; by_cases hkk : kk = k <;> simp [alookup, hkk, h1]
    | some existing =>
      simp only [closureMergeSet, halk] at h
      by_cases hlen : (ArrayIntersection existing vals).length = 0
      · rw [if_pos hlen] at h; exact absurd h (by simp)
      · rw [if_neg hlen] at h
        rcases ih (aset r kk (ArrayIntersection existing vals)) r' h k hk with h1 | h1
        · rcases isSome_aset_inv h1 with h2 | h2
          · left; exact h2
          · right; subst h2; simp [alookup]
        · right; by_cases hkk : kk = k <;> simp [alookup, hkk, h1]

theorem mergeSet_entry (set : List (String × List String)) :
    ∀ r r', closureMergeSet set r = Except.ok r' →
    ∀ k u, alookup set k = some u → ∀ xs', alookup r' k = some xs' → ∀ y ∈ xs', y ∈ u := by
  induction set with
  | nil => intro r r' h k u hku; simp [alookup] at hku
  | cons p rest ih =>
    intro r r' h k u hku xs' hx' y hy
    obtain ⟨kk, vals⟩ := p
    by_cases hkk : k = kk
    · subst hkk
      have hu : u = vals := by
        have := hku
        simp [alookup] at this
        exact this.symm
      subst hu
      cases halk : alookup r k with
      | none =>
        simp only [closureMergeSet, halk] at h
        by_cases hlen : u.length = 0
        · rw [if_pos hlen] at h; exact absurd h (by simp)
        · rw [if_neg hlen] at h
          have hmem := (mergeSet_sub rest _ _ h).1 k xs' hx' u
            (by rw [alookup_aset_self]) y hy
          exact hmem
      | some existing =>
        simp only [closureMergeSet, halk] at h
        by_cases hlen : (ArrayIntersection existing u).length = 0
        · rw [if_pos hlen] at h; exact absurd h (by simp)
        · rw [if_neg hlen] at h
          have hmem := (mergeSet_sub rest _ _ h).1 k xs' hx'
            (ArrayIntersection existing u) (by rw [alookup_aset_self]) y hy
          exact arrayInter_sub_right hmem
    · have hkk2 : ¬ kk = k := fun hh => hkk hh.symm
      have hku1 : alookup rest k = some u := by
        simpa [alookup, hkk2] using hku
      cases halk : alookup r kk with
      | none =>
        simp only [closureMergeSet, halk] at h
        by_cases hlen : vals.length = 0
        · rw [if_pos hlen] at h; exact absurd h (by simp)
        · rw [if_neg hlen] at h
          exact ih (aset r kk vals) r' h k u hku1 xs' hx' y hy
      | some existing =>
        simp only [closureMergeSet, halk] at h
        by_cases hlen : (ArrayIntersection existing vals).length = 0
        · rw [if_pos hlen] at h; exact absurd h (by simp)
        · rw [if_neg hlen] at h
          exact ih (aset r kk (ArrayIntersection existing vals)) r' h k u hku1 xs' hx' y hy

theorem merge_sub (sets : List (List (String × List String))) :
    ∀ r r', closureMerge sets r = Except.ok r' →
    (∀ k xs', alookup r' k = some xs' → ∀ xs, alookup r k = some xs →
      ∀ y ∈ xs', y ∈ xs) ∧
    (∀ k, (alookup r k).isSome → (alookup r' k).isSome) := by
  induction sets with
  | nil =>
    intro r r' h
    simp only [closureMerge] at h
    injection h with h
    subst h
    exact ⟨fun k xs' hx' xs hx y hy => by
        rw [hx'] at hx
        injection hx with hh
        rw [← hh]
        exact hy,
      fun k hk => hk⟩
  | cons s rest ih =>
    intro r r' h
    cases hms : closureMergeSet s r with
    | error e =>
      simp only [closureMerge, hms] at h
      exact absurd h (by simp)
    | ok r1 =>
      simp only [closureMerge, hms] at h
      obtain ⟨s1, m1⟩ := mergeSet_sub s r r1 hms
      obtain ⟨s2, m2⟩ := ih r1 r' h
      constructor
      · intro k xs' hx' xs hx y hy
        have h1 : (alookup r1 k).isSome := m1 k (by rw [hx]; rfl)
        obtain ⟨xs1, hxs1⟩ := Option.isSome_iff_exists.mp h1
        exact s1 k xs1 hxs1 xs hx y (s2 k xs' hx' xs1 hxs1 y hy)
      · intro k hk
        exact m2 k (m1 k hk)

theorem merge_keys (sets : List (List (String × List String))) :
    ∀ r r', closureMerge sets r = Except.ok r' →
    ∀ k, (alookup r' k).isSome →
      (alookup r k).isSome ∨ ∃ set ∈ sets, (alookup set k).isSome := by
  induction sets with
  | nil =>
    intro r r' h k hk
    simp only [closureMerge] at h
    injection h with h
    subst h
    left; exact hk
  | cons s rest ih =>
    intro r r' h k hk
    cases hms : closureMergeSet s r with
    | error e =>
      simp only [closureMerge, hms] at h
      exact absurd h (by simp)
    | ok r1 =>
      simp only [closureMerge, hms] at h
      rcases ih r1 r' h k hk with h1 | ⟨set, hm, hs⟩
      · rcases mergeSet_keys s r r1 hms k h1 with h2 | h2
        · left; exact h2
        · right; exact ⟨s, List.mem_cons_self s rest, h2⟩
      · right; exact ⟨set, List.mem_cons_of_mem s hm, hs⟩

theorem merge_entry (sets : List (List (String × List String))) :
    ∀ r r', closureMerge sets r = Except.ok r' →
    ∀ set ∈ sets, ∀ k u, alookup set k = some u →
    ∀ xs', alookup r' k = some xs' → ∀ y ∈ xs', y ∈ u := by
  induction sets with
  | nil => intro r r' h set hm; simp at hm
  | cons s rest ih =>
    intro r r' h set hm k u hku xs' hx' y hy
    cases hms : closureMergeSet s r with
    | error e =>
      simp only [closureMerge, hms] at h
      exact absurd h (by simp)
    | ok r1 =>
      simp only [closureMerge, hms] at h
      rcases List.mem_cons.mp hm with hm1 | hm1
      · subst hm1
        have hpres : (alookup r1 k).isSome :=
          mergeSet_present set r r1 hms k (by rw [hku]; rfl)
        obtain ⟨xs1, hxs1⟩ := Option.isSome_iff_exists.mp hpres
        have hsub1 := mergeSet_entry set r r1 hms k u hku xs1 hxs1
        have hsub2 := (merge_sub rest r1 r' h).1 k xs' hx' xs1 hxs1
        exact hsub1 y (hsub2 y hy)
      · exact ih r1 r' h set hm1 k u hku xs' hx' y hy

theorem foldl_aset_keys {α : Type} (pairs : List (String × α)) :
    ∀ acc k, (alookup (pairs.foldl (fun a p => aset a p.1 p.2) acc) k).isSome →
      (alookup acc k).isSome ∨ ∃ p ∈ pairs, p.1 = k := by
  induction pairs with
  | nil => intro acc k h; left; exact h
  | cons q rest ih =>
    intro acc k h
    rcases ih (aset acc q.1 q.2) k h with h1 | ⟨p, hm, hp⟩
    · rcases isSome_aset_inv h1 with h2 | h2
      · left; exact h2
      · right; exact ⟨q, List.mem_cons_self q rest, h2.symm⟩
    · right; exact ⟨p, List.mem_cons_of_mem q hm, hp⟩

theorem buildSet_keys (parents : List String) (zipped : List (List String)) (k : String)
    (h : (alookup (buildSet parents zipped) k).isSome) : k ∈ parents := by
  unfold buildSet at h
  rcases foldl_aset_keys (List.zip parents zipped) [] k h with h1 | ⟨p, hm, hp⟩
  · simp [alookup] at h1
  · rw [← hp]
    exact (List.of_mem_zip hm).1

theorem nodesByName_mem {net : Network} {key : String} {node : Node}
    (h : nodesByName net key = some node) : node ∈ net.nodesInSamplingOrder := by
  unfold nodesByName at h
  exact List.mem_reverse.mp (List.mem_of_find?_eq_some h)

theorem nodesByName_isSome_of_mem {net : Network} {k : String}
    (h : ∃ nd ∈ net.nodesInSamplingOrder, nd.name = k) : (nodesByName net k).isSome := by
  obtain ⟨nd, hm, hname⟩ := h
  unfold nodesByName
  rw [List.find?_isSome]
  exact ⟨nd, List.mem_reverse.mpr hm, by simp [hname]⟩

theorem closureSets_entry (fuel : ℕ) (net : Network) :
    ∀ pv sets found, closureSets fuel net pv = Except.ok (sets, found) →
    ∀ k vals, alookup pv k = some vals → (nodesByName net k).isSome →
    ∃ set ∈ sets, alookup set k = some vals := by
  intro pv
  induction pv with
  | nil => intro sets found h k vals hk; simp [alookup] at hk
  | cons p rest ih =>
    intro sets found h k vals hk hnode
    obtain ⟨key, values⟩ := p
    by_cases hlen : values.length = 0
    · simp only [closureSets, if_pos hlen] at h
      exact absurd h (by simp)
    · simp only [closureSets, if_neg hlen] at h
      by_cases hkey : key = k
      · subst hkey
        have hv : vals = values := by
          have := hk
          simp [alookup] at this
          exact this.symm
        subst hv
        cases hn : nodesByName net key with
        | none => rw [hn] at hnode; simp at hnode
        | some node =>
          rw [hn] at h
          cases hrest : closureSets fuel net rest with
          | error e => rw [hrest] at h; simp at h
          | ok pr =>
            rw [hrest] at h
            obtain ⟨sets0, found0⟩ := pr
            simp only at h
            injection h with h
            injection h with h1 h2
            refine ⟨aset (buildSet node.parentNames
              (filterByLastLevelKeys fuel
                (Undeeper fuel node.conditionalProbabilities) vals)) key vals,
              ?_, by rw [alookup_aset_self]⟩
            rw [← h1]
            exact List.mem_cons_self _ _
      · have hkrest : alookup rest k = some vals := by
          have hkk2 : ¬ key = k := hkey
          simpa [alookup, hkk2] using hk
        cases hn : nodesByName net key with
        | none =>
          rw [hn] at h
          exact ih sets found h k vals hkrest hnode
        | some node =>
          rw [hn] at h
          cases hrest : closureSets fuel net rest with
          | error e => rw [hrest] at h; simp at h
          | ok pr =>
            rw [hrest] at h
            obtain ⟨sets0, found0⟩ := pr
            simp only at h
            injection h with h
            injection h with h1 h2
            obtain ⟨set, hm, hs⟩ := ih sets0 found0 (by rw [hrest]) k vals hkrest hnode
            refine ⟨set, ?_, hs⟩
            rw [← h1]
            exact List.mem_cons_of_mem _ hm

theorem closureSets_keys (fuel : ℕ) (net : Network) :
    ∀ pv sets found, closureSets fuel net pv = Except.ok (sets, found) →
    ∀ set ∈ sets, ∀ k, (alookup set k).isSome →
    (∃ node ∈ net.nodesInSamplingOrder, k ∈ node.parentNames) ∨
      (nodesByName net k).isSome := by
  intro pv
  induction pv with
  | nil =>
    intro sets found h set hm
    simp only [closureSets] at h
    injection h with h
    injection h with h1 h2
    rw [← h1] at hm
    simp at hm
  | cons p rest ih =>
    intro sets found h set hm k hk
    obtain ⟨key, values⟩ := p
    by_cases hlen : values.length = 0
    · simp only [closureSets, if_pos hlen] at h
      exact absurd h (by simp)
    · simp only [closureSets, if_neg hlen] at h
      cases hn : nodesByName net key with
      | none =>
        rw [hn] at h
        exact ih sets found h set hm k hk
      | some node =>
        rw [hn] at h
        cases hrest : closureSets fuel net rest with
        | error e => rw [hrest] at h; simp at h
        | ok pr =>
          rw [hrest] at h
          obtain ⟨sets0, found0⟩ := pr
          simp only at h
          injection h with h
          injection h with h1 h2
          rw [← h1] at hm
          rcases List.mem_cons.mp hm with hm1 | hm1
          · subst hm1
            rcases isSome_aset_inv hk with h3 | h3
            · left
              exact ⟨node, nodesByName_mem hn, buildSet_keys node.parentNames _ k h3⟩
            · right
              rw [h3, hn]
              rfl
          · exact ih sets0 found0 (by rw [hrest]) set hm1 k hk

/-- Claim C3: whenever `GetConstraintClosure` succeeds, every key of the
user constraint map that also occurs in the result is mapped to a subset of
its user-supplied list.  The hypothesis `hwf` is the data-model invariant of
the spec (section 3): every parent name of every node resolves to a node of
the network. -/
theorem spec_c3_closure_narrows (fuel : ℕ) (net : Network)
    (pv R : List (String × List String))
    (hwf : ∀ nd ∈ net.nodesInSamplingOrder, ∀ p ∈ nd.parentNames,
      ∃ md ∈ net.nodesInSamplingOrder, md.name = p)
    (hok : GetConstraintClosure fuel net pv = Except.ok R)
    (k : String) (vals rvals : List String)
    (hp : alookup pv k = some vals) (hr : alookup R k = some rvals) :
    ∀ y ∈ rvals, y ∈ vals := by
  unfold GetConstraintClosure at hok
  cases hcs : closureSets fuel net pv with
  | error e => rw [hcs] at hok; simp at hok
  | ok pr =>
    rw [hcs] at hok
    obtain ⟨sets, found⟩ := pr
    simp only at hok
    by_cases hfound : found = true
    · rw [if_pos hfound] at hok
      by_cases hnode : (nodesByName net k).isSome
      · obtain ⟨set, hm, hs⟩ := closureSets_entry fuel net pv sets found hcs k vals hp hnode
        exact merge_entry sets [] R hok set hm k vals hs rvals hr
      · have hkR : (alookup R k).isSome := by rw [hr]; rfl
        rcases merge_keys sets [] R hok k hkR with h1 | ⟨set, hm, hks⟩
        · simp [alookup] at h1
        · rcases closureSets_keys fuel net pv sets found hcs set hm k hks with
            ⟨node, hnm, hpn⟩ | hsome
          · exact absurd (nodesByName_isSome_of_mem (hwf node hnm k hpn)) hnode
          · exact absurd hsome hnode
    · rw [if_neg hfound] at hok
      injection hok with hok
      rw [← hok] at hr
      simp [alookup] at hr

/-- Witness for claim C3: the concrete network `netPN` with the constraint
`n ∈ [x]`; the closure succeeds and its entry for `n` is a subset of the
constraint list. -/
theorem spec_c3_closure_narrows_witness :
    "x" ∈ (["x"] : List String) :=
  spec_c3_closure_narrows 5 netPN [("n", ["x"])] [("p", ["v1"]), ("n", ["x"])]
    (by decide) (by with_unfolding_all rfl) "n" ["x"] ["x"]
    (by rfl) (by with_unfolding_all rfl) "x" (by decide)

/-! ## Claim C7: accept-language synthesis -/

theorem acceptLangAppend_eq (rest : List String) :
    ∀ (x : ℕ) (acc : String), acceptLangAppend rest x acc = acc ++ renderTail rest x := by
  induction rest with
  | nil => intro x acc; simp [acceptLangAppend, renderTail]
  | cons l r ih =>
    intro x acc
    show acceptLangAppend r (x + 1) (acc ++ "," ++ l ++ ";q=" ++ fmtOneDec (1 - (x : ℚ) / 10))
      = acc ++ renderTail (l :: r) x
    rw [ih]
    show _ = acc ++ ("," ++ l ++ ";q=" ++ fmtOneDec (1 - (x : ℚ) / 10) ++ renderTail r (x + 1))
    simp [String.append_assoc]

theorem foldl_cond_append_sub (f : List String → String → Bool) :
    ∀ (l acc : List String) (x : String),
    x ∈ l.foldl (fun a b => if f a b then a ++ [b] else a) acc → x ∈ acc ∨ x ∈ l := by
  intro l
  induction l with
  | nil => intro acc x h; left; exact h
  | cons b rest ih =>
    intro acc x h
    rcases ih (if f acc b then acc ++ [b] else acc) x h with h1 | h1
    · by_cases hc : f acc b
      · rw [if_pos hc] at h1
        rcases List.mem_append.mp h1 with h2 | h2
        · left; exact h2
        · right; simp at h2; simp [h2]
      · rw [if_neg hc] at h1
        left; exact h1
    · right; exact List.mem_cons_of_mem b h1

theorem foldl_cond_append_keep (f : List String → String → Bool) :
    ∀ (l acc : List String), acc ≠ [] →
    l.foldl (fun a b => if f a b then a ++ [b] else a) acc ≠ [] := by
  intro l
  induction l with
  | nil => intro acc h; exact h
  | cons b rest ih =>
    intro acc h
    apply ih
    show (if f acc b = true then acc ++ [b] else acc) ≠ []
    by_cases hc : f acc b
    · rw [if_pos hc]
      intro hx
      rcases List.append_eq_nil.mp hx with ⟨_, h2⟩
      simp at h2
    · rw [if_neg hc]; exact h

theorem foldl_cond_append_ne (f : List String → String → Bool)
    (hf : ∀ b, f [] b = true) :
    ∀ (l : List String), l ≠ [] →
    l.foldl (fun a b => if f a b then a ++ [b] else a) [] ≠ [] := by
  intro l hl
  cases l with
  | nil => exact absurd rfl hl
  | cons b rest =>
    show rest.foldl _ (if f [] b then [] ++ [b] else []) ≠ []
    rw [hf b]
    simp only [if_true, List.nil_append]
    exact foldl_cond_append_keep f rest [b] (by simp)

theorem foldl_append2_mem (g : String → List String) :
    ∀ (l acc : List String) (x : String),
    x ∈ l.foldl (fun a b => a ++ g b ++ [b]) acc →
    x ∈ acc ∨ ∃ b ∈ l, (x ∈ g b ∨ x = b) := by
  intro l
  induction l with
  | nil => intro acc x h; left; exact h
  | cons b rest ih =>
    intro acc x h
    rcases ih (acc ++ g b ++ [b]) x h with h1 | ⟨c, hc, hx⟩
    · rcases List.mem_append.mp h1 with h2 | h2
      · rcases List.mem_append.mp h2 with h3 | h3
        · left; exact h3
        · right; exact ⟨b, List.mem_cons_self b rest, Or.inl h3⟩
      · right
        refine ⟨b, List.mem_cons_self b rest, Or.inr ?_⟩
        simpa using h2
    · right; exact ⟨c, List.mem_cons_of_mem b hc, hx⟩

theorem foldl_append2_keep (g : String → List String) :
    ∀ (l acc : List String), acc ≠ [] → l.foldl (fun a b => a ++ g b ++ [b]) acc ≠ [] := by
  intro l
  induction l with
  | nil => intro acc h; exact h
  | cons b rest ih =>
    intro acc h
    apply ih
    intro hx
    rcases List.append_eq_nil.mp hx with ⟨_, h2⟩
    simp at h2

theorem foldl_append2_ne (g : String → List String) :
    ∀ (l : List String), l ≠ [] → l.foldl (fun a b => a ++ g b ++ [b]) [] ≠ [] := by
  intro l hl
  cases l with
  | nil => exact absurd rfl hl
  | cons b rest =>
    show rest.foldl _ ([] ++ g b ++ [b]) ≠ []
    apply foldl_append2_keep
    intro hx
    rcases List.append_eq_nil.mp hx with ⟨_, h2⟩
    simp at h2

/-- Claim C7: for every non-empty locale list and every shuffle outcome the
generated accept-language value is a comma-separated sequence of locales
drawn from the input list in which the first locale carries no quality
suffix and the locale at position `i ≥ 1` carries quality `1.0 − 0.1·i`
formatted with one decimal (hence strictly decreasing with step 0.1). -/
theorem spec_c7_accept_language (g : HeaderGenerator) (locales : List String)
    (hsh : ∀ l, (g.shuffle l).Perm l) (hne : locales ≠ []) :
    ∃ ls : List String, ls ≠ [] ∧ (∀ x ∈ ls, x ∈ locales) ∧
      getAcceptLanguageField g locales = renderAcceptLang ls := by
  unfold getAcceptLanguageField
  dsimp only
  set hll0 := locales.filter (fun locale => !(goContains locale "-")) with hh0
  set hll1 := locales.foldl (fun hll locale =>
      if !(slicesContains hll locale) && !(hll.any (fun h => goContains locale h)) then
        hll ++ [locale]
      else hll) hll0 with hh1
  set lia := (g.shuffle hll1).foldl (fun lia h =>
      lia ++ ((g.shuffle locales).filter (fun locale =>
        goContains locale h && !(slicesContains (g.shuffle hll1) locale))) ++ [h]) []
    with hlia
  have hll1ne : hll1 ≠ [] := by
    rw [hh1]
    by_cases h0 : hll0 = []
    · rw [h0]
      exact foldl_cond_append_ne _ (fun b => rfl) locales hne
    · exact foldl_cond_append_keep _ locales hll0 h0
  have hshne : g.shuffle hll1 ≠ [] := by
    intro hx
    have := (hsh hll1).length_eq
    rw [hx] at this
    simp at this
    exact hll1ne (List.length_eq_zero.mp this.symm)
  have hliane : lia ≠ [] := by
    rw [hlia]
    exact foldl_append2_ne _ (g.shuffle hll1) hshne
  have hmem : ∀ x ∈ lia, x ∈ locales := by
    intro x hx
    rw [hlia] at hx
    rcases foldl_append2_mem _ (g.shuffle hll1) [] x hx with h1 | ⟨b, hb, hbx⟩
    · simp at h1
    · rcases hbx with h2 | h2
      · have h3 := (List.mem_filter.mp h2).1
        exact (hsh locales).mem_iff.mp h3
      · subst h2
        have h3 := (hsh hll1).mem_iff.mp hb
        rw [hh1] at h3
        rcases foldl_cond_append_sub _ locales hll0 x h3 with h4 | h4
        · rw [hh0] at h4
          exact (List.mem_filter.mp h4).1
        · exact h4
  cases hl : lia with
  | nil => exact absurd hl hliane
  | cons l0 rest =>
    refine ⟨l0 :: rest, by simp, by rw [← hl]; exact hmem, ?_⟩
    show acceptLangAppend rest 1 l0 = renderAcceptLang (l0 :: rest)
    rw [acceptLangAppend_eq]
    rfl

/-- Witness for claim C7 at a concrete generator and locale list. -/
theorem spec_c7_accept_language_witness :
    ∃ ls : List String, ls ≠ [] ∧ (∀ x ∈ ls, x ∈ ["en-US", "en"]) ∧
      getAcceptLanguageField genOK ["en-US", "en"] = renderAcceptLang ls :=
  spec_c7_accept_language genOK ["en-US", "en"]
    (fun l => List.Perm.refl l) (by decide)

/-! ## Claims C4–C6: the header generator -/

theorem getHeaders_zero (g : HeaderGenerator) (rdh : List (String × String))
    (uav : List String) (rng : ℕ → ℚ) (options : Option HeaderGeneratorOptions) (k : ℕ) :
    GetHeaders g 0 options rdh uav rng k = (Except.error fuelExhaustedMsg, k) := rfl

theorem getHeaders_succ (g : HeaderGenerator) (rdh : List (String × String))
    (uav : List String) (rng : ℕ → ℚ) (n : ℕ)
    (options : Option HeaderGeneratorOptions) (k : ℕ) :
    GetHeaders g (n + 1) options rdh uav rng k =
      getHeadersBody g rdh uav rng n (GetHeadersF g rdh uav rng n) options k := rfl

theorem ordered_fold_mem (headers : List (String × String)) :
    ∀ (order : List String) (acc : List (String × String)),
    (∀ p ∈ acc, p ∈ headers) →
    ∀ p ∈ order.foldl (fun acc a =>
        match alookup headers a with
        | some val => aset acc a val
        | none => acc) acc, p ∈ headers := by
  intro order
  induction order with
  | nil => intro acc hacc p hp; exact hacc p hp
  | cons a rest ih =>
    intro acc hacc p hp
    apply ih _ _ p hp
    intro q hq
    dsimp only at hq
    cases hl : alookup headers a with
    | none =>
      rw [hl] at hq
      exact hacc q hq
    | some val =>
      rw [hl] at hq
      rcases mem_aset hq with h1 | h1
      · exact hacc q h1
      · rw [h1]; exact alookup_mem hl

theorem second_fold_mem (headers : List (String × String)) (order : List String) :
    ∀ (entries acc : List (String × String)),
    (∀ p ∈ acc, p ∈ headers) → (∀ q ∈ entries, q ∈ headers) →
    ∀ p ∈ entries.foldl (fun acc q =>
        if slicesContains order q.1 then acc else aset acc q.1 q.2) acc, p ∈ headers := by
  intro entries
  induction entries with
  | nil => intro acc hacc _ p hp; exact hacc p hp
  | cons q rest ih =>
    intro acc hacc hent p hp
    apply ih _ ?_ (fun r hr => hent r (List.mem_cons_of_mem q hr)) p hp
    intro r hr
    show r ∈ headers
    dsimp only at hr
    by_cases hc : slicesContains order q.1 = true
    · rw [if_pos hc] at hr
      exact hacc r hr
    · rw [if_neg hc] at hr
      rcases mem_aset hr with h1 | h1
      · exact hacc r h1
      · rw [h1]
        have : (q.1, q.2) = q := rfl
        rw [this]
        exact hent q (List.mem_cons_self q rest)

theorem orderHeaders_mem {g : HeaderGenerator} {headers : List (String × String)}
    {order0 : List String} {p : String × String}
    (hp : p ∈ OrderHeaders g headers order0) : p ∈ headers := by
  unfold OrderHeaders at hp
  dsimp only at hp
  refine second_fold_mem headers _ headers _ ?_ (fun q hq => hq) p hp
  intro q hq
  exact ordered_fold_mem headers _ [] (by simp) q hq

theorem convertHeaders_mem (entries : List (String × String)) :
    ∀ (acc : List (String × String)) (x : String × String),
    x ∈ entries.foldl (fun acc p => aset acc (convertName p.1) p.2) acc →
    x ∈ acc ∨ ∃ q ∈ entries, x = (convertName q.1, q.2) := by
  induction entries with
  | nil => intro acc x h; left; exact h
  | cons q rest ih =>
    intro acc x h
    rcases ih (aset acc (convertName q.1) q.2) x h with h1 | ⟨r, hr, hx⟩
    · rcases mem_aset h1 with h2 | h2
      · left; exact h2
      · right; exact ⟨q, List.mem_cons_self q rest, h2⟩
    · right; exact ⟨r, List.mem_cons_of_mem q hr, hx⟩

theorem headerKeep_mem {l : List (String × String)} {p : String × String}
    (hp : p ∈ l.filter (fun p =>
      !((goToLower p.1 == "connection") && (p.2 == "close")) &&
      !(goStartsWith p.1 "*" || (p.2 == missingValueToken)))) : headerEntryOK p := by
  have hc := (List.mem_filter.mp hp).2
  simp only [Bool.and_eq_true, Bool.not_eq_true', Bool.or_eq_false_iff,
    Bool.and_eq_false_iff, beq_eq_false_iff_ne, ne_eq, beq_iff_eq] at hc
  refine ⟨hc.2.1, hc.2.2, ?_⟩
  intro hcc
  rcases hc.1 with h1 | h1
  · exact h1 hcc.1
  · exact h1 hcc.2

/-- Claim C4: a successful `GetHeaders` call with empty request-dependent
headers returns a map with no key beginning with a star, no value equal to
the missing-value sentinel, and no `Connection: close` header. -/
theorem spec_c4_header_invariant : ∀ (fuel : ℕ) (g : HeaderGenerator)
    (options : Option HeaderGeneratorOptions) (uav : List String) (rng : ℕ → ℚ)
    (k : ℕ) (m : List (String × String)),
    (GetHeaders g fuel options [] uav rng k).1 = Except.ok m →
    ∀ p ∈ m, headerEntryOK p := by
  intro fuel
  induction fuel with
  | zero =>
    intro g options uav rng k m hok
    rw [getHeaders_zero] at hok
    exact absurd hok (by simp)
  | succ n ih =>
    intro g options uav rng k m hok
    rw [getHeaders_succ] at hok
    unfold getHeadersBody at hok
    dsimp only at hok
    by_cases hempty : (getHeadersInputSample g n options uav rng k).1.length = 0
    · rw [if_pos hempty] at hok
      by_cases hv1 : (mergeOptions g.globalOptions options).httpVersion = "1"
      · rw [if_pos hv1] at hok
        cases hr2 : (GetHeadersF g [] uav rng n
            (some { mergeOptions g.globalOptions options with httpVersion := "2" })
            (getHeadersInputSample g n options uav rng k).2).1 with
        | error e =>
          rw [hr2] at hok
          exact absurd hok (by simp)
        | ok h2 =>
          rw [hr2] at hok
          simp only [Except.ok.injEq] at hok
          intro p hp
          rw [← hok] at hp
          have hp2 := orderHeaders_mem hp
          unfold convertHeaders at hp2
          rcases convertHeaders_mem h2 [] p hp2 with h3 | ⟨q, hq, hx⟩
          · simp at h3
          · have hq2 := ih g _ uav rng _ h2 hr2 q hq
            rw [hx]
            exact convertName_ok hq2
      · rw [if_neg hv1] at hok
        cases options with
        | none => exact absurd hok (by simp [findRelaxationIndex])
        | some o =>
          cases hfi : findRelaxationIndex (some o) with
          | none =>
            rw [hfi] at hok
            exact absurd hok (by simp)
          | some i =>
            rw [hfi] at hok
            dsimp only at hok
            by_cases hstrict : (mergeOptions g.globalOptions (some o)).strict = true
            · rw [if_pos hstrict] at hok
              exact absurd hok (by simp)
            · rw [if_neg hstrict] at hok
              exact ih g _ uav rng _ m hok
    · rw [if_neg hempty] at hok
      unfold getHeadersMainPath at hok
      dsimp only at hok
      simp only [Except.ok.injEq] at hok
      intro p hp
      rw [← hok] at hp
      have hp2 := orderHeaders_mem hp
      exact headerKeep_mem hp2

/-- Witness for claim C4: a concrete successful `GetHeaders` call. -/
theorem spec_c4_header_invariant_witness :
    ∃ m, (GetHeaders genOK 5 none [] [] rngZero 0).1 = Except.ok m ∧
      ∀ p ∈ m, headerEntryOK p := by
  have hok : (GetHeaders genOK 5 none [] [] rngZero 0).1 =
      Except.ok [("foo", "bar"), ("Accept-Language", "en-US")] := by
    with_unfolding_all rfl
  exact ⟨_, hok, spec_c4_header_invariant 5 genOK none [] rngZero 0 _ hok⟩

theorem findIdx?_spec (p : String → Bool) (d : String) :
    ∀ (l : List String) (i : ℕ), l.findIdx? p = some i →
    i < l.length ∧ p ((l.get? i).getD d) = true ∧
      ∀ j, j < i → p ((l.get? j).getD d) = false := by
  intro l
  induction l with
  | nil => intro i h; simp [List.findIdx?] at h
  | cons a rest ih =>
    intro i h
    rw [List.findIdx?_cons] at h
    by_cases hp : p a = true
    · rw [if_pos hp] at h
      injection h with h
      subst h
      exact ⟨Nat.succ_pos _, by simpa using hp, fun j hj => absurd hj (Nat.not_lt_zero j)⟩
    · rw [if_neg hp, List.findIdx?_succ] at h
      cases hrest : rest.findIdx? p with
      | none => rw [hrest] at h; simp at h
      | some i0 =>
        rw [hrest] at h
        simp only [Option.map_some'] at h
        injection h with h
        subst h
        obtain ⟨h1, h2, h3⟩ := ih i0 hrest
        refine ⟨by simpa using Nat.succ_lt_succ h1, by simpa using h2, ?_⟩
        intro j hj
        cases j with
        | zero => simpa using hp
        | succ j0 => simpa using h3 j0 (Nat.lt_of_succ_lt_succ hj)

/-- Claim C5: when `GetHeaders` obtains an empty input sample and the
effective HTTP version is not `"1"`, it clears exactly the first class of
the fixed relaxation order that is explicitly set in the per-call options
and re-invokes itself with otherwise-unchanged options (so no earlier class
is ever cleared), and returns the over-constrained error when `Strict` is
set or no class is explicitly set. -/
theorem spec_c5_relaxation (g : HeaderGenerator) (fuel : ℕ)
    (options : Option HeaderGeneratorOptions) (rdh : List (String × String))
    (uav : List String) (rng : ℕ → ℚ) (k : ℕ)
    (hempty : (getHeadersInputSample g fuel options uav rng k).1.length = 0)
    (hv : ¬ (mergeOptions g.globalOptions options).httpVersion = "1") :
    (GetHeaders g (fuel + 1) options rdh uav rng k =
      match options, findRelaxationIndex options with
      | some o, some i =>
          if (mergeOptions g.globalOptions options).strict = true then
            (Except.error overConstrainedMsg,
              (getHeadersInputSample g fuel options uav rng k).2)
          else
            GetHeaders g fuel
              (some (applyRelaxation o ((relaxationOrder.get? i).getD ""))) rdh uav rng
              (getHeadersInputSample g fuel options uav rng k).2
      | _, _ => (Except.error overConstrainedMsg,
          (getHeadersInputSample g fuel options uav rng k).2)) ∧
    (∀ o i, options = some o → findRelaxationIndex options = some i →
      i < relaxationOrder.length ∧
      classIsSet o ((relaxationOrder.get? i).getD "") = true ∧
      ∀ j, j < i → classIsSet o ((relaxationOrder.get? j).getD "") = false) := by
  constructor
  · rw [getHeaders_succ]
    unfold getHeadersBody
    dsimp only
    rw [if_pos hempty, if_neg hv]
    rcases options with _ | o
    · rfl
    · rcases hi : findRelaxationIndex (some o) with _ | i
      · rfl
      · rfl
  · intro o i ho hfi
    subst ho
    exact findIdx?_spec (fun key => classIsSet o key) "" relaxationOrder i hfi

/-- Witness for claim C5: with only the locale class set in the per-call
options and an unsatisfiable operating-system constraint, `GetHeaders`
re-invokes itself with the locales cleared. -/
theorem spec_c5_relaxation_witness :
    GetHeaders genFail 4 (some optsLocOnly) [] [] rngZero 0 =
      GetHeaders genFail 3 (some (applyRelaxation optsLocOnly "locales")) [] [] rngZero 0 := by
  have h := spec_c5_relaxation genFail 3 (some optsLocOnly) [] [] rngZero 0
    (by with_unfolding_all rfl) (by decide)
  rw [h.1]
  with_unfolding_all rfl

/-- Claim C6: when `GetHeaders` obtains an empty input sample and the
effective HTTP version is `"1"`, it re-invokes itself with HTTP version
`"2"` and returns that result with every header name rewritten to
pascal-case, except that names beginning with `sec-ch-ua` are kept
unchanged (so lowercase is preserved) and the names `dnt`, `rtt`, `ect`
are rewritten to upper case. -/
theorem spec_c6_http1_fallback (g : HeaderGenerator) (fuel : ℕ)
    (options : Option HeaderGeneratorOptions) (rdh : List (String × String))
    (uav : List String) (rng : ℕ → ℚ) (k : ℕ)
    (hempty : (getHeadersInputSample g fuel options uav rng k).1.length = 0)
    (hv : (mergeOptions g.globalOptions options).httpVersion = "1") :
    (GetHeaders g (fuel + 1) options rdh uav rng k =
      (match (GetHeaders g fuel
          (some { mergeOptions g.globalOptions options with httpVersion := "2" })
          rdh uav rng (getHeadersInputSample g fuel options uav rng k).2).1 with
       | Except.error e => (Except.error e,
           (GetHeaders g fuel
             (some { mergeOptions g.globalOptions options with httpVersion := "2" })
             rdh uav rng (getHeadersInputSample g fuel options uav rng k).2).2)
       | Except.ok headers2 => (Except.ok (OrderHeaders g (convertHeaders headers2) []),
           (GetHeaders g fuel
             (some { mergeOptions g.globalOptions options with httpVersion := "2" })
             rdh uav rng (getHeadersInputSample g fuel options uav rng k).2).2))) ∧
    (∀ name : String, goStartsWith name "sec-ch-ua" = true → convertName name = name) ∧
    (∀ name : String, goStartsWith name "sec-ch-ua" = false →
      (name = "dnt" ∨ name = "rtt" ∨ name = "ect") → convertName name = goToUpper name) ∧
    (∀ name : String, goStartsWith name "sec-ch-ua" = false →
      ¬(name = "dnt" ∨ name = "rtt" ∨ name = "ect") → convertName name = pascalize name) := by
  refine ⟨?_, ?_, ?_, ?_⟩
  · rw [getHeaders_succ]
    unfold getHeadersBody
    dsimp only
    rw [if_pos hempty, if_pos hv]
    try rfl
  · intro name h
    unfold convertName
    rw [if_pos h]
  · intro name h1 h2
    unfold convertName
    rw [if_neg (by simp [h1]), if_pos h2]
  · intro name h1 h2
    unfold convertName
    rw [if_neg (by simp [h1]), if_neg h2]

/-- Witness for claim C6 at a concrete generator running under HTTP
version 1 with an unsatisfiable constraint. -/
theorem spec_c6_http1_fallback_witness :
    GetHeaders genFail1 4 none [] [] rngZero 0 =
      (match (GetHeaders genFail1 3
          (some { mergeOptions genFail1.globalOptions none with httpVersion := "2" })
          [] [] rngZero (getHeadersInputSample genFail1 3 none [] rngZero 0).2).1 with
       | Except.error e => (Except.error e,
           (GetHeaders genFail1 3
             (some { mergeOptions genFail1.globalOptions none with httpVersion := "2" })
             [] [] rngZero (getHeadersInputSample genFail1 3 none [] rngZero 0).2).2)
       | Except.ok headers2 =>
           (Except.ok (OrderHeaders genFail1 (convertHeaders headers2) []),
           (GetHeaders genFail1 3
             (some { mergeOptions genFail1.globalOptions none with httpVersion := "2" })
             [] [] rngZero (getHeadersInputSample genFail1 3 none [] rngZero 0).2).2)) :=
  (spec_c6_http1_fallback genFail1 3 none [] [] rngZero 0
    (by with_unfolding_all rfl) (by decide)).1

theorem getFingerprintLoop_zero (G : FingerprintGenerator) (fuel : ℕ)
    (opt : FingerprintGeneratorOptions) (rdh : List (String × String))
    (rng : ℕ → ℚ) (csp : Option (List (String × List String)))
    (fv : List (String × List String)) (k : ℕ) :
    getFingerprintLoop G fuel opt rdh rng csp 0 fv k =
      (Except.error retriesMsg, fv, k, 0) := rfl

theorem getFingerprintLoop_succ (G : FingerprintGenerator) (fuel : ℕ)
    (opt : FingerprintGeneratorOptions) (rdh : List (String × String))
    (rng : ℕ → ℚ) (csp : Option (List (String × List String))) (n : ℕ)
    (fv : List (String × List String)) (k : ℕ) :
    getFingerprintLoop G fuel opt rdh rng csp (n + 1) fv k =
      match fpAttempt G fuel opt rdh rng csp fv k with
      | Sum.inl f =>
          ((getFingerprintLoop G fuel opt rdh rng csp n f.1 f.2).1,
           (getFingerprintLoop G fuel opt rdh rng csp n f.1 f.2).2.1,
           (getFingerprintLoop G fuel opt rdh rng csp n f.1 f.2).2.2.1,
           (getFingerprintLoop G fuel opt rdh rng csp n f.1 f.2).2.2.2 + 1)
      | Sum.inr s => (Except.ok s.1, s.2.1, s.2.2, 1) := rfl

/-- The retry loop performs at most as many attempts as its budget, and the
retries-exhausted error is returned exactly when the whole budget is used up
without a produced fingerprint. -/
theorem getFingerprintLoop_spec (G : FingerprintGenerator) (fuel : ℕ)
    (opt : FingerprintGeneratorOptions) (rdh : List (String × String))
    (rng : ℕ → ℚ) (csp : Option (List (String × List String))) :
    ∀ (n : ℕ) (fv : List (String × List String)) (k : ℕ),
      (getFingerprintLoop G fuel opt rdh rng csp n fv k).2.2.2 ≤ n ∧
      ∀ e, (getFingerprintLoop G fuel opt rdh rng csp n fv k).1 = Except.error e →
        e = retriesMsg ∧
        (getFingerprintLoop G fuel opt rdh rng csp n fv k).2.2.2 = n := by
  intro n
  induction n with
  | zero =>
    intro fv k
    refine ⟨Nat.le_refl 0, ?_⟩
    intro e he
    rw [getFingerprintLoop_zero] at he
    injection he with h
    exact ⟨h.symm, rfl⟩
  | succ n ih =>
    intro fv k
    rw [getFingerprintLoop_succ]
    cases hA : fpAttempt G fuel opt rdh rng csp fv k with
    | inl f =>
      dsimp only
      obtain ⟨h1, h2⟩ := ih f.1 f.2
      refine ⟨Nat.succ_le_succ h1, ?_⟩
      intro e he
      obtain ⟨he1, he2⟩ := h2 e he
      exact ⟨he1, by rw [he2]⟩
    | inr s =>
      dsimp only
      refine ⟨Nat.succ_le_succ (Nat.zero_le n), ?_⟩
      intro e he
      exact absurd he (by simp)

/-- When every iteration of the retry loop fails, the loop spends its whole
budget and returns the retries-exhausted error. -/
theorem getFingerprintLoop_allFail (G : FingerprintGenerator) (fuel : ℕ)
    (opt : FingerprintGeneratorOptions) (rdh : List (String × String))
    (rng : ℕ → ℚ) (csp : Option (List (String × List String)))
    (hall : ∀ fv k, ∃ f,
      fpAttempt G fuel opt rdh rng csp fv k = Sum.inl f) :
    ∀ (n : ℕ) (fv : List (String × List String)) (k : ℕ),
      (getFingerprintLoop G fuel opt rdh rng csp n fv k).1 =
        Except.error retriesMsg ∧
      (getFingerprintLoop G fuel opt rdh rng csp n fv k).2.2.2 = n := by
  intro n
  induction n with
  | zero => intro fv k; exact ⟨rfl, rfl⟩
  | succ n ih =>
    intro fv k
    obtain ⟨f, hf⟩ := hall fv k
    rw [getFingerprintLoop_succ, hf]
    dsimp only
    obtain ⟨ih1, ih2⟩ := ih f.1 f.2
    exact ⟨ih1, by rw [ih2]⟩

/-- Claim C9: `GetFingerprint` performs at most 10 attempts of the
header-generation-plus-fingerprint-sampling loop; any returned error either
happened before the loop (0 attempts) or is the retries-exhausted error
after exactly 10 attempts; and when every attempt fails to produce a
consistent fingerprint the result is that error — never an eleventh
attempt. -/
theorem spec_c9_retry_cap (G : FingerprintGenerator) (fuel : ℕ)
    (options : Option FingerprintGeneratorOptions)
    (rdh : List (String × String)) (rng : ℕ → ℚ) (k : ℕ) :
    (GetFingerprint G fuel options rdh rng k).2.2 ≤ 10 ∧
    (∀ e, (GetFingerprint G fuel options rdh rng k).1 = Except.error e →
      (GetFingerprint G fuel options rdh rng k).2.2 = 0 ∨
      (e = retriesMsg ∧ (GetFingerprint G fuel options rdh rng k).2.2 = 10)) ∧
    (∀ st, getFingerprintSetup G fuel
        (mergeFingerprintOptions G.fingerprintGlobalOptions options) =
        Except.ok st →
      (∀ fv k1, ∃ f, fpAttempt G fuel
          (mergeFingerprintOptions G.fingerprintGlobalOptions options)
          rdh rng st.2 fv k1 = Sum.inl f) →
      (GetFingerprint G fuel options rdh rng k).1 = Except.error retriesMsg ∧
      (GetFingerprint G fuel options rdh rng k).2.2 = 10) := by
  unfold GetFingerprint
  dsimp only
  cases hS : getFingerprintSetup G fuel
      (mergeFingerprintOptions G.fingerprintGlobalOptions options) with
  | error e0 =>
    refine ⟨Nat.zero_le 10, ?_, ?_⟩
    · intro e _
      exact Or.inl rfl
    · intro st hst
      exact absurd hst (by simp)
  | ok st0 =>
    dsimp only
    obtain ⟨h1, h2⟩ := getFingerprintLoop_spec G fuel
      (mergeFingerprintOptions G.fingerprintGlobalOptions options) rdh rng st0.2
      10 st0.1 k
    refine ⟨h1, ?_, ?_⟩
    · intro e he
      exact Or.inr (h2 e he)
    · intro st hst hall
      injection hst with hst
      subst hst
      exact getFingerprintLoop_allFail G fuel
        (mergeFingerprintOptions G.fingerprintGlobalOptions options) rdh rng st0.2
        hall 10 st0.1 k

/-- Witness facts for claim C9 at a concrete over-constrained generator:
all ten attempts are spent and the retries-exhausted error comes back. -/
theorem spec_c9_retry_cap_witness :
    (GetFingerprint fpGenFail 5 none [] rngZero 0).2.2 ≤ 10 ∧
    (GetFingerprint fpGenFail 5 none [] rngZero 0).1 = Except.error retriesMsg ∧
    (GetFingerprint fpGenFail 5 none [] rngZero 0).2.2 = 10 := by
  have h := spec_c9_retry_cap fpGenFail 5 none [] rngZero 0
  have he : (GetFingerprint fpGenFail 5 none [] rngZero 0).1 =
      Except.error retriesMsg := by
    with_unfolding_all rfl
  refine ⟨h.1, he, ?_⟩
  rcases h.2.1 retriesMsg he with h0 | h1
  · exact absurd h0 (by with_unfolding_all decide)
  · exact h1.2
